import Mathlib

/-!
Verification of the chess_game repository's rules engine against its
specification.  The data model and operations below are shallow embeddings
of the Rust sources:

* `src/src/chess_board.rs`    — `GameBoard` (HashMap of squares keyed by
  coordinate, modelled as an association list built over the same
  col-outer/row-inner generation order), `check_space`, `place_piece`,
  `remove_piece`, `Clone`, `from_string`.
* `src/src/game_analyser.rs`  — `get_game_state`, `is_insufficient_material`,
  `get_all_moves`, `can_castle_long`, `is_color_in_check`.
* `src/chess_game/src/piece/bishop.rs` — `possible_moves` (namespace `cg`).
* `src/game_board/src/square.rs` — square-name translation.

Rust `panic!`/`unwrap` failures are modelled by `Option`/`Except` `none`
results; `usize` is modelled by `Nat` (no arithmetic in the sources relies
on wrap-around), and in-generator coordinate arithmetic uses `Int` exactly
where the sources cast to `i32`/`isize`.
-/

/-- Piece colors, from the analyser crate (`Color` enum). -/
inductive Color where
  | White
  | Black
deriving DecidableEq, Repr

/-- `Color::opposite_color` from the sources. -/
def Color.opposite_color : Color → Color
  | Color.White => Color.Black
  | Color.Black => Color.White

/-- Piece kinds (`PieceType` enum). -/
inductive PieceType where
  | Pawn
  | Knight
  | Bishop
  | Rook
  | Queen
  | King
deriving DecidableEq, Repr

/-- A chess piece: a color and a piece type (`ChessPiece` struct). -/
structure ChessPiece where
  color : Color
  piece_type : PieceType
deriving DecidableEq, Repr

/-- Game status classification (`GameState` enum). -/
inductive GameState where
  | InProgress
  | Check
  | Checkmate
  | Stalemate
  | InsufficientMaterial
  | FiftyMoveRule
deriving DecidableEq, Repr

/-- Modelled from the spec: the analyser crate's `ChessMoveType` is not under
`src/`; per spec §3 it is a tagged union over simple moves, explicit
captures (`Take`, carrying the captured piece, used by the check detector),
en passant, and castling.  The `Move` variant carries exactly the fields the
analyser's own pattern matches use (origin, destination, moving piece). -/
inductive ChessMoveType where
  | Move (original_position : Nat × Nat) (new_position : Nat × Nat)
      (piece : ChessPiece)
  | Take (original_position : Nat × Nat) (new_position : Nat × Nat)
      (piece : ChessPiece) (taken_piece : ChessPiece)
  | EnPassant (original_position : Nat × Nat) (new_position : Nat × Nat)
      (taken_position : Nat × Nat) (piece : ChessPiece)
      (taken_piece : ChessPiece)
  | Castle (king_original_position : Nat × Nat) (king_new_position : Nat × Nat)
      (rook_original_position : Nat × Nat) (rook_new_position : Nat × Nat)
      (color : Color)
deriving DecidableEq, Repr

/-- Is a move the castle variant? -/
def ChessMoveType.isCastle : ChessMoveType → Bool
  | ChessMoveType.Castle _ _ _ _ _ => true
  | _ => false

/-- The board from `src/src/chess_board.rs`: a mapping from `(col, row)` to an
optional occupant, with fixed width and height.  The Rust `HashMap<SquareId,
Square>` is modelled as an association list generated in the same
col-outer/row-inner order; `HashMap::get` becomes association-list lookup
(the sources never rely on iteration order of the map). -/
structure GameBoard where
  squares : List ((Nat × Nat) × Option ChessPiece)
  width : Nat
  height : Nat
deriving DecidableEq, Repr

/-- Association-list lookup standing in for `HashMap::get(&SquareId)`. -/
def findSquare (squares : List ((Nat × Nat) × Option ChessPiece))
    (col row : Nat) : Option (Option ChessPiece) :=
  match squares with
  | [] => none
  | (k, v) :: rest => if k = (col, row) then some v else findSquare rest col row

/-- In-place update of one square, standing in for mutation through
`HashMap::get_mut`. -/
def updateSquare (squares : List ((Nat × Nat) × Option ChessPiece))
    (col row : Nat) (v : Option ChessPiece) :
    List ((Nat × Nat) × Option ChessPiece) :=
  squares.map (fun kv => if kv.1 = (col, row) then (kv.1, v) else kv)

/-- A grid of squares keyed by `(col, row)` over `[0, w) × [0, h)`, built
col-outer/row-inner — the insertion order of `generate_board`. -/
def mkGrid (w h : Nat) (f : Nat → Nat → Option ChessPiece) :
    List ((Nat × Nat) × Option ChessPiece) :=
  (List.range w).flatMap (fun col =>
    (List.range h).map (fun row => ((col, row), f col row)))

/-- `GameBoard::generate_board`: one empty square per coordinate in
`[0, width) × [0, height)`, inserted col-outer/row-inner. -/
def GameBoard.generate_board (width height : Nat) :
    List ((Nat × Nat) × Option ChessPiece) :=
  mkGrid width height (fun _ _ => none)

/-- `GameBoard::build` (the Rust version asserts `width > 0 && height > 0`;
no claim depends on the zero-size panic, so the constructor is total here). -/
def GameBoard.build (width height : Nat) : GameBoard :=
  { squares := GameBoard.generate_board width height
    width := width
    height := height }

/-- `GameBoard::get_width`. -/
def GameBoard.get_width (b : GameBoard) : Nat := b.width

/-- `GameBoard::get_height`. -/
def GameBoard.get_height (b : GameBoard) : Nat := b.height

/-- `GameBoard::check_space`: `self.squares.get(&space_id).unwrap().get_piece()`.
The outer `Option` is the `unwrap` panic: `none` means the coordinate has no
square (out of bounds on a well-formed board) and the Rust code aborts. -/
def GameBoard.check_space (b : GameBoard) (col row : Nat) :
    Option (Option ChessPiece) :=
  findSquare b.squares col row

/-- `GameBoard::place_piece`: `self.squares.get_mut(&space_id).unwrap()
.place_piece(piece)`.  `none` models the `unwrap` panic on a missing square. -/
def GameBoard.place_piece (b : GameBoard) (piece : ChessPiece)
    (col row : Nat) : Option GameBoard :=
  match findSquare b.squares col row with
  | none => none
  | some _ => some { b with squares := updateSquare b.squares col row (some piece) }

/-- `GameBoard::remove_piece`: `self.squares.get_mut(&space_id)?.clear_piece()`.
The `?` operator silently returns `None` (with the board untouched) when the
square is missing — this path does NOT panic in the source. -/
def GameBoard.remove_piece (b : GameBoard) (col row : Nat) :
    Option ChessPiece × GameBoard :=
  match findSquare b.squares col row with
  | none => (none, b)
  | some p => (p, { b with squares := updateSquare b.squares col row none })

/-- `impl Clone for GameBoard`: field-by-field copy (squares, height, width),
exactly as the hand-written `clone` does. -/
def GameBoard.cloneBoard (b : GameBoard) : GameBoard :=
  { squares := b.squares
    height := b.height
    width := b.width }

/-- Occupant of a square, or `none` when empty or missing.  This is the view
the move generators use after their own bounds checks (for coordinates inside
a well-formed board it agrees with `check_space`). -/
def GameBoard.pieceAt (b : GameBoard) (col row : Nat) : Option ChessPiece :=
  match findSquare b.squares col row with
  | none => none
  | some p => p

/-- Spec §3 invariant: exactly one square per coordinate of
`[0, width) × [0, height)` — lookups succeed exactly in bounds. -/
def GameBoard.WellFormed (b : GameBoard) : Prop :=
  ∀ col row, (findSquare b.squares col row).isSome ↔
    (col < b.width ∧ row < b.height)

/-- Total single-square update used by the self-applying moves and the board
parser (their Rust counterparts only ever touch in-bounds squares, where this
agrees with `place_piece`/`remove_piece`). -/
def setPieceAt (b : GameBoard) (col row : Nat) (p : Option ChessPiece) :
    GameBoard :=
  { b with squares := updateSquare b.squares col row p }

/-- The piece-character table of `GameBoard::from_string`. -/
def charPiece : Char → Option ChessPiece
  | '♙' => some ⟨Color.White, PieceType.Pawn⟩
  | '♖' => some ⟨Color.White, PieceType.Rook⟩
  | '♘' => some ⟨Color.White, PieceType.Knight⟩
  | '♗' => some ⟨Color.White, PieceType.Bishop⟩
  | '♕' => some ⟨Color.White, PieceType.Queen⟩
  | '♔' => some ⟨Color.White, PieceType.King⟩
  | '♟' => some ⟨Color.Black, PieceType.Pawn⟩
  | '♜' => some ⟨Color.Black, PieceType.Rook⟩
  | '♞' => some ⟨Color.Black, PieceType.Knight⟩
  | '♝' => some ⟨Color.Black, PieceType.Bishop⟩
  | '♛' => some ⟨Color.Black, PieceType.Queen⟩
  | '♚' => some ⟨Color.Black, PieceType.King⟩
  | _ => none

/-- The placement loop of `GameBoard::from_string`: for each character at
`index`, `column = index % width`, `row = |index / width - (height - 1)|`
(the source's `unsigned_abs` of an `isize` difference). -/
def placeChars (width height : Nat) : List Char → Nat → GameBoard → GameBoard
  | [], _, b => b
  | c :: rest, index, b =>
    let b₂ := match charPiece c with
      | some piece =>
        let column := index % width
        let row := ((index / width : Int) - ((height : Int) - 1)).natAbs
        setPieceAt b column row (some piece)
      | none => b
    placeChars width height rest (index + 1) b₂

/-- `GameBoard::from_string` (strings are modelled as `List Char`; the
source's formatted error message is abbreviated to a fixed string). -/
def GameBoard.from_string (width height : Nat) (s : List Char) :
    Except String GameBoard :=
  let s := s.filter (fun c => !(c == '\n'))
  if s.length ≠ width * height then
    Except.error "unexpected string length"
  else
    Except.ok (placeChars width height s 0 (GameBoard.build width height))

/-- Bounds test on `Int` coordinates, as the generators perform after casting
to signed integers. -/
def inBoundsI (b : GameBoard) (x y : Int) : Bool :=
  decide (0 ≤ x) && decide (x < (b.width : Int)) &&
    decide (0 ≤ y) && decide (y < (b.height : Int))

/-- Occupant lookup at `Int` coordinates (`none` when off the board). -/
def pieceAtI (b : GameBoard) (x y : Int) : Option ChessPiece :=
  if inBoundsI b x y then b.pieceAt x.toNat y.toNat else none

/-- Conversion of in-bounds signed coordinates back to a board position. -/
def toPos (x y : Int) : Nat × Nat := (x.toNat, y.toNat)

/-- Modelled from the spec: the per-piece sliding walk (spec §4.2) of the
analyser crate's piece implementations, which are not under `src/`: follow one
direction vector until board edge, an enemy piece (emit the capture and stop)
or a friendly piece (stop without emitting).  `fuel` bounds the walk (strictly
more steps than any board line can hold). -/
def slideWalk (b : GameBoard) (me : ChessPiece) (orig : Nat × Nat)
    (dx dy : Int) : Nat → Int → Int → List ChessMoveType
  | 0, _, _ => []
  | fuel + 1, x, y =>
    if inBoundsI b x y then
      match pieceAtI b x y with
      | some p =>
        if p.color = me.color then []
        else [ChessMoveType.Take orig (toPos x y) me p]
      | none =>
        ChessMoveType.Move orig (toPos x y) me ::
          slideWalk b me orig dx dy fuel (x + dx) (y + dy)
    else []

/-- Modelled from the spec: a sliding piece walks each of its direction
vectors (spec §4.2). -/
def slidingMoves (b : GameBoard) (me : ChessPiece) (orig : Nat × Nat)
    (dirs : List (Int × Int)) : List ChessMoveType :=
  dirs.flatMap (fun d =>
    slideWalk b me orig d.1 d.2 (b.width + b.height)
      ((orig.1 : Int) + d.1) ((orig.2 : Int) + d.2))

def bishopDirections : List (Int × Int) := [(1, 1), (1, -1), (-1, 1), (-1, -1)]

def rookDirections : List (Int × Int) := [(1, 0), (-1, 0), (0, 1), (0, -1)]

def queenDirections : List (Int × Int) := bishopDirections ++ rookDirections

/-- Modelled from the spec: fixed-offset jumps for Knight and King
(spec §4.2): each landing square is a candidate if on-board and not occupied
by a friendly piece; an enemy occupant yields a capture. -/
def leapStep (b : GameBoard) (me : ChessPiece) (orig : Nat × Nat)
    (o : Int × Int) : Option ChessMoveType :=
  let x := (orig.1 : Int) + o.1
  let y := (orig.2 : Int) + o.2
  if inBoundsI b x y then
    match pieceAtI b x y with
    | some p =>
      if p.color = me.color then none
      else some (ChessMoveType.Take orig (toPos x y) me p)
    | none => some (ChessMoveType.Move orig (toPos x y) me)
  else none

/-- Modelled from the spec: the landing-square test applied across the whole
fixed offset set. -/
def leapMoves (b : GameBoard) (me : ChessPiece) (orig : Nat × Nat)
    (offsets : List (Int × Int)) : List ChessMoveType :=
  offsets.filterMap (leapStep b me orig)

def knightOffsets : List (Int × Int) :=
  [(1, 2), (2, 1), (2, -1), (1, -2), (-1, -2), (-2, -1), (-2, 1), (-1, 2)]

def kingOffsets : List (Int × Int) :=
  [(1, 0), (1, 1), (0, 1), (-1, 1), (-1, 0), (-1, -1), (0, -1), (1, -1)]

def promotionTypes : List PieceType :=
  [PieceType.Knight, PieceType.Bishop, PieceType.Rook, PieceType.Queen]

/-- Modelled from the spec: the pawn generator (spec §4.2): forward one when
empty, forward two from the color's starting rank with both squares empty,
diagonal captures of enemy occupants, en passant when the immediately
preceding move was an opposing pawn's two-square advance landing adjacent on
the mover's rank, and promotion (one candidate per promotion piece type) on
reaching the farthest rank. -/
def pawnCapStep (b : GameBoard) (me : ChessPiece) (c r : Nat)
    (d promoRank : Int) (dc : Int) : List ChessMoveType :=
  match pieceAtI b ((c : Int) + dc) ((r : Int) + d) with
  | some p =>
    if p.color ≠ me.color then
      if (r : Int) + d = promoRank then
        promotionTypes.map (fun pt =>
          ChessMoveType.Take (c, r) (toPos ((c : Int) + dc) ((r : Int) + d))
            ⟨me.color, pt⟩ p)
      else [ChessMoveType.Take (c, r) (toPos ((c : Int) + dc) ((r : Int) + d))
        me p]
    else []
  | none => []

/-- Modelled from the spec: the en passant candidate at one diagonal offset —
the immediately preceding move must be an opposing pawn's two-square advance
landing adjacent on the mover's rank; the capture lands on the passed-over
square while the captured pawn sits on the landing square. -/
def pawnEpStep (me : ChessPiece) (c r : Nat) (last : Option ChessMoveType)
    (d : Int) (dc : Int) : List ChessMoveType :=
  match last with
  | some (ChessMoveType.Move op np mp) =>
    if mp.piece_type = PieceType.Pawn ∧ mp.color ≠ me.color ∧
        (np.1 : Int) = (c : Int) + dc ∧ (np.2 : Int) = (r : Int) ∧
        ((op.2 : Int) - (np.2 : Int) = 2 ∨ (np.2 : Int) - (op.2 : Int) = 2) ∧
        op.1 = np.1 then
      [ChessMoveType.EnPassant (c, r) (toPos ((c : Int) + dc) ((r : Int) + d))
        np me mp]
    else []
  | _ => []

/-- Modelled from the spec: the pawn's forward-one candidates (promotion
fan-out on the farthest rank). -/
def pawnFwd1 (b : GameBoard) (me : ChessPiece) (c r : Nat)
    (d promoRank : Int) : List ChessMoveType :=
  if inBoundsI b (c : Int) ((r : Int) + d) ∧
      (pieceAtI b (c : Int) ((r : Int) + d)).isNone then
    if (r : Int) + d = promoRank then
      promotionTypes.map (fun pt =>
        ChessMoveType.Move (c, r) (toPos (c : Int) ((r : Int) + d))
          ⟨me.color, pt⟩)
    else [ChessMoveType.Move (c, r) (toPos (c : Int) ((r : Int) + d)) me]
  else []

/-- Modelled from the spec: the pawn's two-square advance from its starting
rank, both squares empty. -/
def pawnFwd2 (b : GameBoard) (me : ChessPiece) (c r : Nat)
    (d startRank : Int) : List ChessMoveType :=
  if (r : Int) = startRank ∧
      (inBoundsI b (c : Int) ((r : Int) + d) ∧
        (pieceAtI b (c : Int) ((r : Int) + d)).isNone) ∧
      (inBoundsI b (c : Int) ((r : Int) + 2 * d) ∧
        (pieceAtI b (c : Int) ((r : Int) + 2 * d)).isNone) then
    [ChessMoveType.Move (c, r) (toPos (c : Int) ((r : Int) + 2 * d)) me]
  else []

def pawnMovesCore (b : GameBoard) (me : ChessPiece) (c r : Nat)
    (last : Option ChessMoveType) (d startRank promoRank : Int) :
    List ChessMoveType :=
  pawnFwd1 b me c r d promoRank ++ pawnFwd2 b me c r d startRank ++
    ([-1, 1] : List Int).flatMap (pawnCapStep b me c r d promoRank) ++
    ([-1, 1] : List Int).flatMap (pawnEpStep me c r last d)

/-- Modelled from the spec: the pawn generator's color dispatch — White walks
up from start rank 1 promoting at the top rank, Black walks down from rank
`height - 2` promoting at rank 0 (rank comparisons happen on `Int`, where the
source computes signed offsets). -/
def pawnMoves (b : GameBoard) (me : ChessPiece) (c r : Nat)
    (last : Option ChessMoveType) : List ChessMoveType :=
  pawnMovesCore b me c r last
    (if me.color = Color.White then 1 else -1)
    (if me.color = Color.White then 1 else (b.height : Int) - 2)
    (if me.color = Color.White then (b.height : Int) - 1 else 0)

/-- Modelled from the spec: `ChessPiece::get_legal_moves` of the analyser
crate (its piece modules are not under `src/`) — the pseudo-legal generator
dispatch of spec §4.2. -/
def ChessPiece.get_legal_moves (piece : ChessPiece) (col row : Nat)
    (b : GameBoard) (last : Option ChessMoveType) : List ChessMoveType :=
  match piece.piece_type with
  | PieceType.Pawn => pawnMoves b piece col row last
  | PieceType.Knight => leapMoves b piece (col, row) knightOffsets
  | PieceType.Bishop => slidingMoves b piece (col, row) bishopDirections
  | PieceType.Rook => slidingMoves b piece (col, row) rookDirections
  | PieceType.Queen => slidingMoves b piece (col, row) queenDirections
  | PieceType.King => leapMoves b piece (col, row) kingOffsets

/-- Modelled from the spec: `ChessMoveType::make_move` (spec §3: each variant
is self-applying — remove/place/promote the relevant pieces on the board). -/
def ChessMoveType.make_move (m : ChessMoveType) (b : GameBoard) : GameBoard :=
  match m with
  | ChessMoveType.Move op np piece =>
    setPieceAt (setPieceAt b op.1 op.2 none) np.1 np.2 (some piece)
  | ChessMoveType.Take op np piece _ =>
    setPieceAt (setPieceAt b op.1 op.2 none) np.1 np.2 (some piece)
  | ChessMoveType.EnPassant op np tp piece _ =>
    setPieceAt (setPieceAt (setPieceAt b op.1 op.2 none) tp.1 tp.2 none)
      np.1 np.2 (some piece)
  | ChessMoveType.Castle ko kn ro rn color =>
    setPieceAt (setPieceAt (setPieceAt (setPieceAt b ko.1 ko.2 none)
      ro.1 ro.2 none) kn.1 kn.2 (some ⟨color, PieceType.King⟩))
      rn.1 rn.2 (some ⟨color, PieceType.Rook⟩)

/-- Modelled from the spec: the `Game` struct of the analyser crate is not
under `src/`; per spec §3 it owns the board, the color to move, a turn
counter, the ordered move history, the fifty-move-rule signal, and the four
castling-rights flags the commented-out castling block reads. -/
structure Game where
  board : GameBoard
  current_turn : Color
  turn_number : Nat
  moves : List ChessMoveType
  fifty_move_rule_flag : Bool
  white_can_castle_long : Bool
  white_can_castle_short : Bool
  black_can_castle_long : Bool
  black_can_castle_short : Bool
deriving DecidableEq, Repr

/-- `Game::get_board`. -/
def Game.get_board (g : Game) : GameBoard := g.board

/-- `Game::get_moves`. -/
def Game.get_moves (g : Game) : List ChessMoveType := g.moves

/-- Modelled from the spec: `Game::can_trigger_fifty_move_rule` — the
classifier consumes a boolean signal owned by move-history bookkeeping
(spec §9). -/
def Game.can_trigger_fifty_move_rule (g : Game) : Bool := g.fifty_move_rule_flag

/-- The col-outer/row-inner coordinate enumeration every scan in
`game_analyser.rs` performs. -/
def boardCoords (b : GameBoard) : List (Nat × Nat) :=
  (List.range b.width).flatMap (fun col =>
    (List.range b.height).map (fun row => (col, row)))

/-- The inner test of `is_color_in_check`: is the move a `Take` whose taken
piece is the king of the given color? -/
def takesKing (color : Color) (m : ChessMoveType) : Bool :=
  match m with
  | ChessMoveType.Take _ _ _ taken =>
    decide (taken.piece_type = PieceType.King) && decide (taken.color = color)
  | _ => false

/-- The per-square body of the `is_color_in_check` scan: if the square holds
an opposing piece, generate its pseudo-legal moves and look for a `Take` of
the friendly King. -/
def checkScanAt (b : GameBoard) (color : Color)
    (last : Option ChessMoveType) (cr : Nat × Nat) : Bool :=
  match b.pieceAt cr.1 cr.2 with
  | some piece =>
    if piece.color = color.opposite_color then
      (piece.get_legal_moves cr.1 cr.2 b last).any (takesKing color)
    else false
  | none => false

/-- `is_color_in_check` from `game_analyser.rs`: scan every square; for each
opposing piece, generate its pseudo-legal moves and look for a `Take` of the
friendly King. -/
def is_color_in_check (b : GameBoard) (color : Color)
    (last : Option ChessMoveType) : Bool :=
  (boardCoords b).any (checkScanAt b color last)

/-- `get_all_moves` from `game_analyser.rs`: for every friendly piece,
generate pseudo-legal candidates, simulate each on a board clone and keep
those that do not leave the mover in check.  The castling block in the source
is commented out (`// TODO refactor chess move for castling`), so no castle
moves are ever appended. -/
def get_all_moves (g : Game) : List ChessMoveType :=
  (boardCoords g.board).flatMap (fun cr =>
    match g.board.pieceAt cr.1 cr.2 with
    | some piece =>
      if piece.color = g.current_turn then
        (piece.get_legal_moves cr.1 cr.2 g.board g.get_moves.getLast?).filter
          (fun m => !(is_color_in_check (m.make_move g.board.cloneBoard)
            g.current_turn g.get_moves.getLast?))
      else []
    | none => [])

/-- `is_insufficient_material` from `game_analyser.rs`.  The result `none`
models the `panic!("No king?")` on a kingless piece list that contains
nothing but King/Bishop/Knight-typed pieces. -/
def is_insufficient_material (pieces : List ChessPiece) : Option Bool :=
  let king_count := pieces.countP (fun p => decide (p.piece_type = PieceType.King))
  let bishop_count := pieces.countP (fun p => decide (p.piece_type = PieceType.Bishop))
  let knight_count := pieces.countP (fun p => decide (p.piece_type = PieceType.Knight))
  let other_count := pieces.length - knight_count - bishop_count - king_count
  if other_count > 0 then some false
  else if king_count = 0 then none
  else if bishop_count = 0 ∧ knight_count = 0 then some true
  else if bishop_count = 1 ∧ knight_count = 0 then some true
  else if bishop_count = 0 ∧ knight_count = 1 then some true
  else some false

/-- The piece-collection loop of `get_game_state`, restricted to one color
(the source pushes into the white or black vector while scanning
col-outer/row-inner). -/
def activePieces (b : GameBoard) (color : Color) : List ChessPiece :=
  (boardCoords b).filterMap (fun cr =>
    match b.pieceAt cr.1 cr.2 with
    | some p => if p.color = color then some p else none
    | none => none)

/-- `get_game_state` from `game_analyser.rs`.  `none` models the
`is_insufficient_material` panic; the Rust `&&` between the two material
tests short-circuits, which the nested match reproduces. -/
def get_game_state (g : Game) : Option (GameState × List ChessMoveType) :=
  let is_in_check := is_color_in_check g.get_board g.current_turn
    g.get_moves.getLast?
  let possible_next_moves := get_all_moves g
  if possible_next_moves.isEmpty then
    some (if is_in_check then GameState.Checkmate else GameState.Stalemate,
      possible_next_moves)
  else if is_in_check then
    some (GameState.Check, possible_next_moves)
  else
    match is_insufficient_material (activePieces g.get_board Color.White) with
    | none => none
    | some false =>
      if g.can_trigger_fifty_move_rule then
        some (GameState.FiftyMoveRule, possible_next_moves)
      else some (GameState.InProgress, possible_next_moves)
    | some true =>
      match is_insufficient_material (activePieces g.get_board Color.Black) with
      | none => none
      | some true => some (GameState.InsufficientMaterial, possible_next_moves)
      | some false =>
        if g.can_trigger_fifty_move_rule then
          some (GameState.FiftyMoveRule, possible_next_moves)
        else some (GameState.InProgress, possible_next_moves)

/-- The body of `can_castle_long` once the King has been found at `col`:
not currently in check, and the King simulated one and two squares toward
column 0 (on board clones, via `remove_piece().unwrap()` and `place_piece`)
is not in check either.  `none` models the panics (`unwrap` on an empty
square, `usize` underflow of `col - 2`, out-of-bounds placement). -/
def castleKingChecks (b : GameBoard) (color : Color) (col row : Nat) :
    Option Bool :=
  if is_color_in_check b color none then some false
  else
    match (b.cloneBoard.remove_piece col row) with
    | (none, _) => none
    | (some king, bc₁) =>
      if col < 1 then none
      else
        match bc₁.place_piece king (col - 1) row with
        | none => none
        | some bc₁ =>
          if is_color_in_check bc₁ color none then some false
          else
            match (b.cloneBoard.remove_piece col row) with
            | (none, _) => none
            | (some king₂, bc₂) =>
              if col < 2 then none
              else
                match bc₂.place_piece king₂ (col - 2) row with
                | none => none
                | some bc₂ =>
                  if is_color_in_check bc₂ color none then some false
                  else some true

/-- The `for col in 1..width` scan of `can_castle_long`: skip empty squares;
the first occupied square must hold the King, otherwise castling is refused;
the loop falling off the end yields `false`. -/
def castleLongLoop (b : GameBoard) (color : Color) (row : Nat) :
    Nat → Nat → Option Bool
  | 0, _ => some false
  | fuel + 1, col =>
    if col < b.width then
      match b.check_space col row with
      | none => none
      | some none => castleLongLoop b color row fuel (col + 1)
      | some (some piece) =>
        if piece.piece_type ≠ PieceType.King then some false
        else castleKingChecks b color col row
    else some false

/-- `can_castle_long` from `game_analyser.rs`: the square at column 0 of the
back rank must hold a Rook, then the scan toward higher columns must find the
King first and the king-safety simulations must all pass. -/
def can_castle_long (color : Color) (b : GameBoard) : Option Bool :=
  let row := match color with
    | Color.White => 0
    | Color.Black => b.height - 1
  match b.check_space 0 row with
  | none => none
  | some none => some false
  | some (some piece) =>
    if piece.piece_type ≠ PieceType.Rook then some false
    else castleLongLoop b color row b.width 1

namespace cg

/-- The newer crate's move type (`src/chess_game`): its `Move` variant carries
origin, destination, moving piece, the optionally taken piece, and an optional
promotion piece type (spec §3), exactly the fields `bishop.rs` constructs. -/
inductive ChessMoveType where
  | Move (original_position : Nat × Nat) (new_position : Nat × Nat)
      (piece : ChessPiece) (taken_piece : Option ChessPiece)
      (promotion : Option PieceType)
deriving DecidableEq, Repr

/-- Modelled from the spec: `Board::<ChessPiece>::get_piece_at_space` of the
`game_board` crate is not under `src/`; per spec §4.1 it is the bounds-aware
occupant lookup of the square grid. -/
def get_piece_at_space (b : GameBoard) (x y : Nat) : Option ChessPiece :=
  b.pieceAt x y

/-- The `while` loop of `bishop::possible_moves` along one direction vector:
push a quiet move on an empty square and continue; on an enemy piece push the
capture and — as the source's loop does, having no `break` in that branch —
CONTINUE walking; stop only at a friendly piece or the board edge. -/
def bishopWalk (color : Color) (position : Nat × Nat) (b : GameBoard)
    (dx dy : Int) : Nat → Int → Int → List ChessMoveType
  | 0, _, _ => []
  | fuel + 1, x, y =>
    if 0 ≤ x ∧ 0 ≤ y ∧ x < (b.get_width : Int) ∧ y < (b.get_height : Int) then
      match get_piece_at_space b x.toNat y.toNat with
      | some p =>
        if p.color ≠ color then
          ChessMoveType.Move position (x.toNat, y.toNat)
              ⟨color, PieceType.Bishop⟩ (some p) none ::
            bishopWalk color position b dx dy fuel (x + dx) (y + dy)
        else []
      | none =>
        ChessMoveType.Move position (x.toNat, y.toNat)
            ⟨color, PieceType.Bishop⟩ none none ::
          bishopWalk color position b dx dy fuel (x + dx) (y + dy)
    else []

/-- `bishop::possible_moves` from `src/chess_game/src/piece/bishop.rs`: walk
the four diagonal direction vectors from the origin. -/
def possible_moves (color : Color) (position : Nat × Nat) (board : GameBoard) :
    List ChessMoveType :=
  ([((1 : Int), (1 : Int)), (1, -1), (-1, 1), (-1, -1)]).flatMap (fun dir =>
    bishopWalk color position board dir.1 dir.2
      (board.get_width + board.get_height)
      ((position.1 : Int) + dir.1) ((position.2 : Int) + dir.2))

end cg

/-- The column-identifier loop of `get_square_name_from_row_and_col`:
repeatedly take `remainder % 26` as a letter, divide by 26, and subtract one
more unless the division reached zero (bijective base-26, low digit first). -/
def colDigitsLoop (remainder : Nat) : List Char :=
  let r := remainder % 26
  let c := Char.ofNat (r + 97)
  if remainder / 26 = 0 then [c]
  else c :: colDigitsLoop (remainder / 26 - 1)
termination_by remainder
decreasing_by
  have h26 : remainder / 26 ≠ 0 := by assumption
  have : 26 ≤ remainder := by
    by_contra hlt
    exact h26 (Nat.div_eq_of_lt (by omega))
  have := Nat.div_le_self remainder 26
  omega

/-- Decimal rendering of `format!("{}", n)` as a character list
(most-significant digit first). -/
def decimalChars (n : Nat) : List Char :=
  ((Nat.digits 10 n).reverse).map (fun d => Char.ofNat (d + 48))

/-- `get_square_name_from_row_and_col` from `square.rs`: the reversed
bijective-base-26 column letters followed by the decimal of `row + 1`. -/
def get_square_name_from_row_and_col (column row : Nat) : List Char :=
  (colDigitsLoop column).reverse ++ decimalChars (row + 1)

/-- `char::is_ascii_alphabetic`. -/
def isAsciiAlphabetic (c : Char) : Bool :=
  (65 ≤ c.toNat && c.toNat ≤ 90) || (97 ≤ c.toNat && c.toNat ≤ 122)

/-- `char::is_ascii_digit`. -/
def isAsciiDigit (c : Char) : Bool :=
  48 ≤ c.toNat && c.toNat ≤ 57

/-- The character loop of `get_column_and_row_from_square_name`: while
`finding_col`, letters extend the column accumulator and the first digit
switches to the row accumulator; any other character is invalid, as is any
non-digit once the row has started. -/
def splitLoop : List Char → Bool → List Char → List Char →
    Option (List Char × List Char)
  | [], _, colAcc, rowAcc => some (colAcc, rowAcc)
  | c :: rest, findingCol, colAcc, rowAcc =>
    if findingCol then
      if isAsciiAlphabetic c then splitLoop rest true (colAcc ++ [c]) rowAcc
      else if isAsciiDigit c then splitLoop rest false colAcc (rowAcc ++ [c])
      else none
    else if isAsciiDigit c then splitLoop rest false colAcc (rowAcc ++ [c])
    else none

/-- The positional column sum of `get_column_and_row_from_square_name`:
`column += 26^(len - index - 1) * (c - 'a' + 1)` over the enumerated column
characters. -/
def columnGo (len : Nat) : List Char → Nat → Nat
  | [], _ => 0
  | c :: rest, index =>
    26 ^ (len - index - 1) * (c.toNat - 97 + 1) + columnGo len rest (index + 1)

/-- `str::parse::<usize>` on an all-digit string (decimal left fold). -/
def parseDecimal (cs : List Char) : Nat :=
  cs.foldl (fun acc c => acc * 10 + (c.toNat - 48)) 0

/-- `get_column_and_row_from_square_name` from `square.rs`. -/
def get_column_and_row_from_square_name (name : List Char) :
    Except String (Nat × Nat) :=
  match splitLoop name true [] [] with
  | none => Except.error "Invalid input"
  | some (colAsString, rowAsString) =>
    if colAsString.isEmpty ∨ rowAsString.isEmpty then
      Except.error "Invalid input"
    else
      let column := columnGo colAsString.length colAsString 0
      let row := parseDecimal rowAsString
      Except.ok (column - 1, row - 1)

/-- Little-endian value of a bijective-base-26 letter list ('a' = 1). -/
def littleVal : List Char → Nat
  | [] => 0
  | c :: t => (c.toNat - 97 + 1) + 26 * littleVal t

/-- Big-endian positional value of a letter list ('a' = 1). -/
def bigVal : List Char → Nat
  | [] => 0
  | c :: t => (c.toNat - 97 + 1) * 26 ^ t.length + bigVal t

/-- 3x3 board with a single black pawn at (1, 1): the obstruction fixture for
the bishop generator. -/
def pawnBlockBoard : GameBoard :=
  setPieceAt (GameBoard.build 3 3) 1 1 (some ⟨Color.Black, PieceType.Pawn⟩)

/-- 1x1 board holding only the white King. -/
def loneKingBoard : GameBoard :=
  setPieceAt (GameBoard.build 1 1) 0 0 (some ⟨Color.White, PieceType.King⟩)

/-- A game record with all flags set and an empty history, over the given
board with White to move. -/
def mkWhiteGame (b : GameBoard) : Game :=
  { board := b
    current_turn := Color.White
    turn_number := 1
    moves := []
    fifty_move_rule_flag := false
    white_can_castle_long := true
    white_can_castle_short := true
    black_can_castle_long := true
    black_can_castle_short := true }

/-- The lone-king 1x1 game: no legal moves and no check (stalemate shape). -/
def loneKingGame : Game := mkWhiteGame loneKingBoard

/-- 1x2 board with the white King at (0, 0): exactly one legal king move. -/
def kingStepGame : Game :=
  mkWhiteGame (setPieceAt (GameBoard.build 1 2) 0 0
    (some ⟨Color.White, PieceType.King⟩))

/-- 3x3 King+Bishop versus lone King: insufficient material for both sides. -/
def kbvkGame : Game :=
  mkWhiteGame (setPieceAt (setPieceAt (setPieceAt (GameBoard.build 3 3)
    0 0 (some ⟨Color.White, PieceType.King⟩))
    1 0 (some ⟨Color.White, PieceType.Bishop⟩))
    2 2 (some ⟨Color.Black, PieceType.King⟩))

/-- 4x1 board with the white Rook at (0, 0) and white King at (2, 0): every
castling precondition of the source's `can_castle_long` holds. -/
def castleReadyBoard : GameBoard :=
  setPieceAt (setPieceAt (GameBoard.build 4 1)
    0 0 (some ⟨Color.White, PieceType.Rook⟩))
    2 0 (some ⟨Color.White, PieceType.King⟩)

/-- The castle-ready position as a game with all castling flags true. -/
def castleReadyGame : Game := mkWhiteGame castleReadyBoard

/-- Color-swapped copy of a piece (the piece-wise part of the board mirror). -/
def swapPiece (p : ChessPiece) : ChessPiece :=
  ⟨p.color.opposite_color, p.piece_type⟩

/-- 180-degree rotation of a coordinate on a `w` by `h` board. -/
def mirrorPos (w h : Nat) (p : Nat × Nat) : Nat × Nat :=
  (w - 1 - p.1, h - 1 - p.2)

/-- 180-degree rotation plus color swap of a move. -/
def mirrorMove (w h : Nat) : ChessMoveType → ChessMoveType
  | ChessMoveType.Move op np piece =>
    ChessMoveType.Move (mirrorPos w h op) (mirrorPos w h np) (swapPiece piece)
  | ChessMoveType.Take op np piece taken =>
    ChessMoveType.Take (mirrorPos w h op) (mirrorPos w h np) (swapPiece piece)
      (swapPiece taken)
  | ChessMoveType.EnPassant op np tp piece taken =>
    ChessMoveType.EnPassant (mirrorPos w h op) (mirrorPos w h np)
      (mirrorPos w h tp) (swapPiece piece) (swapPiece taken)
  | ChessMoveType.Castle ko kn ro rn color =>
    ChessMoveType.Castle (mirrorPos w h ko) (mirrorPos w h kn)
      (mirrorPos w h ro) (mirrorPos w h rn) color.opposite_color

/-- The appropriately mirrored board of the spec's symmetry property: the
board rotated 180 degrees with every piece's color swapped. -/
def mirrorBoard (b : GameBoard) : GameBoard :=
  { squares := mkGrid b.width b.height (fun col row =>
      (b.pieceAt (b.width - 1 - col) (b.height - 1 - row)).map swapPiece)
    width := b.width
    height := b.height }

theorem findSquare_append_some {l₁ : List ((Nat × Nat) × Option ChessPiece)}
    {col row : Nat} {v : Option ChessPiece}
    (l₂ : List ((Nat × Nat) × Option ChessPiece))
    (h : findSquare l₁ col row = some v) :
    findSquare (l₁ ++ l₂) col row = some v := by
  induction l₁ with
  | nil => simp [findSquare] at h
  | cons kv rest ih =>
    obtain ⟨k, v₀⟩ := kv
    by_cases hk : k = (col, row)
    · simp only [findSquare, if_pos hk] at h
      simp [findSquare, hk, h]
    · simp only [findSquare, if_neg hk] at h
      simp [findSquare, hk, ih h]

theorem findSquare_append_none {l₁ : List ((Nat × Nat) × Option ChessPiece)}
    {col row : Nat} (l₂ : List ((Nat × Nat) × Option ChessPiece))
    (h : findSquare l₁ col row = none) :
    findSquare (l₁ ++ l₂) col row = findSquare l₂ col row := by
  induction l₁ with
  | nil => simp
  | cons kv rest ih =>
    obtain ⟨k, v₀⟩ := kv
    by_cases hk : k = (col, row)
    · simp [findSquare, if_pos hk] at h
    · simp only [findSquare, if_neg hk] at h
      simp [findSquare, hk, ih h]

theorem findSquare_cons (k : Nat × Nat) (v : Option ChessPiece)
    (rest : List ((Nat × Nat) × Option ChessPiece)) (col row : Nat) :
    findSquare ((k, v) :: rest) col row =
      if k = (col, row) then some v else findSquare rest col row := rfl

theorem findSquare_col_block (h cc col row : Nat) (g : Nat → Option ChessPiece) :
    findSquare ((List.range h).map (fun row => ((cc, row), g row))) col row =
      if cc = col ∧ row < h then some (g row) else none := by
  induction h with
  | zero => simp [findSquare]
  | succ n ih =>
    rw [List.range_succ, List.map_append]
    by_cases hblock : cc = col ∧ row < n
    · have h1 : findSquare ((List.range n).map
          (fun row => ((cc, row), g row))) col row = some (g row) := by
        rw [ih, if_pos hblock]
      rw [findSquare_append_some _ h1, if_pos ⟨hblock.1, by omega⟩]
    · have h1 : findSquare ((List.range n).map
          (fun row => ((cc, row), g row))) col row = none := by
        rw [ih, if_neg hblock]
      rw [findSquare_append_none _ h1, List.map_singleton, findSquare_cons]
      by_cases he : (cc, n) = (col, row)
      · rw [if_pos he]
        injection he with he₁ he₂
        subst he₁
        subst he₂
        rw [if_pos ⟨rfl, Nat.lt_succ_self _⟩]
      · rw [if_neg he]
        have h2 : ¬ (cc = col ∧ row < n + 1) := by
          intro hcr
          apply he
          have hr : row = n := by
            rcases Nat.lt_succ_iff_lt_or_eq.mp hcr.2 with hlt | heq
            · exact absurd ⟨hcr.1, hlt⟩ hblock
            · exact heq
          rw [hcr.1, hr]
        rw [if_neg h2]
        rfl

theorem findSquare_mkGrid (w h : Nat) (f : Nat → Nat → Option ChessPiece)
    (col row : Nat) :
    findSquare (mkGrid w h f) col row =
      if col < w ∧ row < h then some (f col row) else none := by
  unfold mkGrid
  induction w with
  | zero => simp [findSquare]
  | succ n ih =>
    rw [List.range_succ, List.flatMap_append]
    by_cases hblock : col < n ∧ row < h
    · have h1 : findSquare ((List.range n).flatMap (fun col =>
          (List.range h).map (fun row => ((col, row), f col row)))) col row =
          some (f col row) := by
        rw [ih, if_pos hblock]
      rw [findSquare_append_some _ h1, if_pos ⟨by omega, hblock.2⟩]
    · have h1 : findSquare ((List.range n).flatMap (fun col =>
          (List.range h).map (fun row => ((col, row), f col row)))) col row =
          none := by
        rw [ih, if_neg hblock]
      rw [findSquare_append_none _ h1]
      simp only [List.flatMap_cons, List.flatMap_nil, List.append_nil]
      rw [findSquare_col_block h n col row (f n)]
      by_cases he : n = col ∧ row < h
      · rw [if_pos he, if_pos ⟨by omega, he.2⟩, he.1]
      · rw [if_neg he]
        have h2 : ¬ (col < n + 1 ∧ row < h) := by
          intro hcr
          rcases Nat.lt_succ_iff_lt_or_eq.mp hcr.1 with hlt | heq
          · exact hblock ⟨hlt, hcr.2⟩
          · exact he ⟨heq.symm, hcr.2⟩
        rw [if_neg h2]

theorem findSquare_generate (w h col row : Nat) :
    findSquare (GameBoard.generate_board w h) col row =
      if col < w ∧ row < h then some none else none :=
  findSquare_mkGrid w h (fun _ _ => none) col row

theorem build_wellFormed (w h : Nat) : (GameBoard.build w h).WellFormed := by
  intro col row
  simp only [GameBoard.build, GameBoard.WellFormed, findSquare_generate]
  by_cases hc : col < w ∧ row < h <;> simp [hc]

theorem findSquare_update (squares : List ((Nat × Nat) × Option ChessPiece))
    (col row : Nat) (v : Option ChessPiece) (col₂ row₂ : Nat) :
    findSquare (updateSquare squares col row v) col₂ row₂ =
      if col₂ = col ∧ row₂ = row then
        (findSquare squares col row).map (fun _ => v)
      else findSquare squares col₂ row₂ := by
  induction squares with
  | nil =>
    by_cases h : col₂ = col ∧ row₂ = row <;> simp [findSquare, updateSquare, h]
  | cons kv rest ih =>
    obtain ⟨k, v₀⟩ := kv
    have hstep : updateSquare ((k, v₀) :: rest) col row v =
        (if k = (col, row) then (k, v) else (k, v₀)) :: updateSquare rest col row v := by
      simp only [updateSquare, List.map_cons]
    rw [hstep]
    by_cases hk : k = (col, row)
    · rw [if_pos hk]
      by_cases he : k = (col₂, row₂)
      · have h1 : col₂ = col ∧ row₂ = row := by
          rw [hk] at he

          exact ⟨(Prod.mk.injEq .. ▸ he).1.symm, (Prod.mk.injEq .. ▸ he).2.symm⟩
        rw [findSquare_cons, if_pos he, if_pos h1, findSquare_cons, if_pos hk]
        rfl
      · have h1 : ¬ (col₂ = col ∧ row₂ = row) := by
          intro hcr
          exact he (by rw [hk, hcr.1, hcr.2])
        rw [findSquare_cons, if_neg he, ih, if_neg h1, if_neg h1,
          findSquare_cons, if_neg he]
    · rw [if_neg hk]
      by_cases he : k = (col₂, row₂)
      · have h1 : ¬ (col₂ = col ∧ row₂ = row) := by
          intro hcr
          exact hk (by rw [he, hcr.1, hcr.2])
        rw [findSquare_cons, if_pos he, if_neg h1, findSquare_cons, if_pos he]
      · rw [findSquare_cons, if_neg he, ih, findSquare_cons, if_neg hk,
          findSquare_cons, if_neg he]

theorem place_piece_none {b : GameBoard} {col row : Nat} (piece : ChessPiece)
    (h : findSquare b.squares col row = none) :
    b.place_piece piece col row = none := by
  unfold GameBoard.place_piece
  rw [h]

theorem place_piece_some {b : GameBoard} {col row : Nat}
    {v : Option ChessPiece} (piece : ChessPiece)
    (h : findSquare b.squares col row = some v) :
    b.place_piece piece col row = some (setPieceAt b col row (some piece)) := by
  unfold GameBoard.place_piece
  rw [h]
  rfl

theorem remove_piece_none {b : GameBoard} {col row : Nat}
    (h : findSquare b.squares col row = none) :
    b.remove_piece col row = (none, b) := by
  unfold GameBoard.remove_piece
  rw [h]

theorem remove_piece_some {b : GameBoard} {col row : Nat}
    {v : Option ChessPiece} (h : findSquare b.squares col row = some v) :
    b.remove_piece col row = (v, setPieceAt b col row none) := by
  unfold GameBoard.remove_piece
  rw [h]
  rfl

/-- C1: the bishop generator violates the stop-at-first-enemy rule: on
`pawnBlockBoard` (black pawn at (1, 1)) the white bishop at (0, 0) is given
both the capture of the pawn at (1, 1) and the quiet move to (2, 2) strictly
beyond it along the same diagonal (the source's enemy branch pushes the
capture but never breaks out of the walk). -/
theorem bishop_generates_past_first_enemy :
    pawnBlockBoard.pieceAt 1 1 = some ⟨Color.Black, PieceType.Pawn⟩ ∧
    cg.ChessMoveType.Move (0, 0) (1, 1) ⟨Color.White, PieceType.Bishop⟩
        (some ⟨Color.Black, PieceType.Pawn⟩) none ∈
      cg.possible_moves Color.White (0, 0) pawnBlockBoard ∧
    cg.ChessMoveType.Move (0, 0) (2, 2) ⟨Color.White, PieceType.Bishop⟩
        none none ∈
      cg.possible_moves Color.White (0, 0) pawnBlockBoard := by
  refine ⟨rfl, ?_, ?_⟩ <;> decide

/-- C3: when the legal-move list is empty, `get_game_state` answers with a
status plus the empty list (some, never an error): Checkmate when the side to
move is in check, Stalemate otherwise. -/
theorem empty_moves_classified (g : Game) (h : get_all_moves g = []) :
    get_game_state g =
      some ((if is_color_in_check g.get_board g.current_turn
          g.get_moves.getLast? then GameState.Checkmate
        else GameState.Stalemate), []) := by
  unfold get_game_state
  simp [h]

/-- Witness for C3: the lone-king 1x1 game has no moves, is not in check, and
classifies as Stalemate with the empty list. -/
theorem empty_moves_classified_witness :
    get_game_state loneKingGame = some (GameState.Stalemate, []) := by
  rw [empty_moves_classified loneKingGame (by decide)]
  decide

/-- C4: every move returned by `get_all_moves` is fully legal: simulated on
the clone of the game's board it leaves the mover's color not in check
(candidates failing this test are filtered out). -/
theorem all_moves_leave_no_self_check (g : Game) (m : ChessMoveType)
    (h : m ∈ get_all_moves g) :
    is_color_in_check (m.make_move g.board.cloneBoard) g.current_turn
      g.get_moves.getLast? = false := by
  unfold get_all_moves at h
  rw [List.mem_flatMap] at h
  obtain ⟨cr, _, hm⟩ := h
  split at hm
  · split at hm
    · rw [List.mem_filter] at hm
      simpa using hm.2
    · simp at hm
  · simp at hm

/-- Witness for C4: the white king's step from (0, 0) to (0, 1) on the 1x2
board is in the produced move list and leaves White out of check. -/
theorem all_moves_leave_no_self_check_witness :
    is_color_in_check ((ChessMoveType.Move (0, 0) (0, 1)
          ⟨Color.White, PieceType.King⟩).make_move
        kingStepGame.board.cloneBoard) kingStepGame.current_turn
      kingStepGame.get_moves.getLast? = false :=
  all_moves_leave_no_self_check kingStepGame _ (by decide)

/-- C7 counterexample: `remove_piece` at the out-of-bounds coordinate (1, 0)
of the 1x1 board returns the perfectly normal value `(None, unchanged board)`
— it does not fail fast, refuting the claim for this accessor. -/
theorem remove_piece_oob_returns_normally :
    (GameBoard.build 1 1).remove_piece 1 0 = (none, GameBoard.build 1 1) := by
  decide

/-- C7 (amended): on a well-formed board and an out-of-bounds coordinate,
`place_piece` and `check_space` fail fast (modelled `none` for the `unwrap`
panic), while `remove_piece` silently returns `None` with the board
unchanged; none of the three clamps the coordinate. -/
theorem out_of_bounds_access (b : GameBoard) (hwf : b.WellFormed)
    (piece : ChessPiece) (col row : Nat)
    (h : ¬ (col < b.width ∧ row < b.height)) :
    b.place_piece piece col row = none ∧ b.check_space col row = none ∧
      b.remove_piece col row = (none, b) := by
  have hnone : findSquare b.squares col row = none := by
    have hiff := hwf col row
    cases hfs : findSquare b.squares col row with
    | none => rfl
    | some v =>
      rw [hfs] at hiff
      simp at hiff
      exact absurd hiff h
  refine ⟨?_, ?_, ?_⟩ <;>
    simp [GameBoard.place_piece, GameBoard.check_space,
      GameBoard.remove_piece, hnone]

/-- Witness for C7 (amended) at the 2x2 board and coordinate (2, 0). -/
theorem out_of_bounds_access_witness :
    (GameBoard.build 2 2).place_piece ⟨Color.White, PieceType.Pawn⟩ 2 0 =
        none ∧
      (GameBoard.build 2 2).check_space 2 0 = none ∧
      (GameBoard.build 2 2).remove_piece 2 0 = (none, GameBoard.build 2 2) :=
  out_of_bounds_access _ (build_wellFormed 2 2) _ 2 0 (by decide)

/-- C9: `clone` is an independent deep copy: the clone agrees with the
original on width, height and every square, and a subsequent
`place_piece`/`remove_piece` mutation of the clone produces a board that
still agrees with the original everywhere but the mutated square — the
original's extent and squares are untouched by the mutation. -/
theorem clone_deep_copy (b : GameBoard) :
    (b.cloneBoard.get_width = b.get_width ∧
      b.cloneBoard.get_height = b.get_height ∧
      ∀ col row, b.cloneBoard.check_space col row = b.check_space col row) ∧
    (∀ piece col row b₂,
      b.cloneBoard.place_piece piece col row = some b₂ →
      b₂.get_width = b.get_width ∧ b₂.get_height = b.get_height ∧
      ∀ c₂ r₂, ¬ (c₂ = col ∧ r₂ = row) →
        b₂.check_space c₂ r₂ = b.check_space c₂ r₂) ∧
    (∀ col row,
      (b.cloneBoard.remove_piece col row).2.get_width = b.get_width ∧
      (b.cloneBoard.remove_piece col row).2.get_height = b.get_height ∧
      ∀ c₂ r₂, ¬ (c₂ = col ∧ r₂ = row) →
        (b.cloneBoard.remove_piece col row).2.check_space c₂ r₂ =
          b.check_space c₂ r₂) := by
  have hclone : b.cloneBoard = b := rfl
  refine ⟨⟨rfl, rfl, fun _ _ => rfl⟩, ?_, ?_⟩
  · intro piece col row b₂ hp
    rw [hclone] at hp
    cases hfs : findSquare b.squares col row with
    | none =>
      rw [place_piece_none piece hfs] at hp
      exact absurd hp (by simp)
    | some v =>
      rw [place_piece_some piece hfs] at hp
      have hb₂ : b₂ = setPieceAt b col row (some piece) := by
        injection hp with h₂
        exact h₂.symm
      subst hb₂
      refine ⟨rfl, rfl, fun c₂ r₂ hne => ?_⟩
      show findSquare (updateSquare b.squares col row (some piece)) c₂ r₂ =
        findSquare b.squares c₂ r₂
      rw [findSquare_update, if_neg hne]
  · intro col row
    rw [hclone]
    cases hfs : findSquare b.squares col row with
    | none =>
      rw [remove_piece_none hfs]
      exact ⟨rfl, rfl, fun _ _ _ => rfl⟩
    | some v =>
      rw [remove_piece_some hfs]
      refine ⟨rfl, rfl, fun c₂ r₂ hne => ?_⟩
      show findSquare (updateSquare b.squares col row none) c₂ r₂ =
        findSquare b.squares c₂ r₂
      rw [findSquare_update, if_neg hne]

/-- Witness for C9: place a king on the clone of the 2x1 board at (0, 0);
the untouched square (1, 0) still reads as on the original. -/
theorem clone_deep_copy_witness :
    (setPieceAt (GameBoard.build 2 1) 0 0
        (some ⟨Color.White, PieceType.King⟩)).check_space 1 0 =
      (GameBoard.build 2 1).check_space 1 0 :=
  ((clone_deep_copy (GameBoard.build 2 1)).2.1
    ⟨Color.White, PieceType.King⟩ 0 0 _ rfl).2.2 1 0 (by decide)

theorem countP_piece_split (l : List ChessPiece) :
    l.countP (fun p => decide (p.piece_type = PieceType.King)) +
      l.countP (fun p => decide (p.piece_type = PieceType.Bishop)) +
      l.countP (fun p => decide (p.piece_type = PieceType.Knight)) +
      l.countP (fun p => decide (¬ (p.piece_type = PieceType.King ∨
        p.piece_type = PieceType.Bishop ∨
        p.piece_type = PieceType.Knight))) = l.length := by
  induction l with
  | nil => simp
  | cons p rest ih =>
    simp only [List.countP_cons, List.length_cons]
    cases hpt : p.piece_type <;> simp [hpt] at ih ⊢ <;> omega

/-- C6 counterexample: on the 1x1 board whose only piece is the white King —
so Black has no King at all — `is_color_in_check` for Black returns the
normal value `false` instead of failing loudly, refuting the claim that every
check-detection call on a kingless board aborts. -/
theorem check_detection_kingless_returns_normally :
    is_color_in_check loneKingBoard Color.Black none = false := by decide

/-- C6 (amended): only the material test fails loudly on a missing king:
`is_insufficient_material` panics (modelled `none`) whenever its piece list
contains no King and only Bishop/Knight pieces, while check detection on a
kingless board silently returns `false` rather than failing. -/
theorem missing_king_failure_modes :
    (∀ pieces : List ChessPiece,
      (∀ p ∈ pieces, p.piece_type = PieceType.Bishop ∨
        p.piece_type = PieceType.Knight) →
      is_insufficient_material pieces = none) ∧
    is_color_in_check loneKingBoard Color.Black none = false := by
  constructor
  · intro pieces hall
    have hk : pieces.countP
        (fun p => decide (p.piece_type = PieceType.King)) = 0 := by
      rw [List.countP_eq_zero]
      intro p hp
      rcases hall p hp with h | h <;> simp [h]
    have hocP : pieces.countP (fun p => decide (¬ (p.piece_type =
        PieceType.King ∨ p.piece_type = PieceType.Bishop ∨
        p.piece_type = PieceType.Knight))) = 0 := by
      rw [List.countP_eq_zero]
      intro p hp
      rcases hall p hp with h | h <;> simp [h]
    have hsplit := countP_piece_split pieces
    simp only [is_insufficient_material]
    rw [if_neg (by omega), if_pos hk]
  · decide

/-- Witness for C6 (amended): a lone black-less bishop list makes the
material test panic. -/
theorem missing_king_failure_modes_witness :
    is_insufficient_material [⟨Color.White, PieceType.Bishop⟩] = none :=
  missing_king_failure_modes.1 _ (by decide)

/-- C5: a color's material is judged insufficient exactly when its pieces are
all King/Bishop/Knight with a king present and at most one minor piece; and
— given legal moves exist and the side to move is not in check — the
classifier answers InsufficientMaterial exactly when both colors are
individually insufficient. -/
theorem insufficient_material_rule :
    (∀ pieces : List ChessPiece,
      is_insufficient_material pieces = some true ↔
        ((∀ p ∈ pieces, p.piece_type = PieceType.King ∨
            p.piece_type = PieceType.Bishop ∨
            p.piece_type = PieceType.Knight) ∧
          0 < pieces.countP (fun p => decide (p.piece_type = PieceType.King)) ∧
          pieces.countP (fun p => decide (p.piece_type = PieceType.Bishop)) +
            pieces.countP (fun p => decide (p.piece_type = PieceType.Knight))
            ≤ 1)) ∧
    (∀ g : Game, get_all_moves g ≠ [] →
      is_color_in_check g.get_board g.current_turn g.get_moves.getLast? =
        false →
      (get_game_state g =
          some (GameState.InsufficientMaterial, get_all_moves g) ↔
        (is_insufficient_material (activePieces g.get_board Color.White) =
            some true ∧
          is_insufficient_material (activePieces g.get_board Color.Black) =
            some true))) := by
  constructor
  · intro pieces
    have hsplit := countP_piece_split pieces
    have hallP : (∀ p ∈ pieces, p.piece_type = PieceType.King ∨
        p.piece_type = PieceType.Bishop ∨
        p.piece_type = PieceType.Knight) ↔
        pieces.countP (fun p => decide (¬ (p.piece_type = PieceType.King ∨
          p.piece_type = PieceType.Bishop ∨
          p.piece_type = PieceType.Knight))) = 0 := by
      rw [List.countP_eq_zero]
      constructor
      · intro hall p hp
        have h := hall p hp
        simp
        tauto
      · intro hall p hp
        have h := hall p hp
        simp at h
        tauto
    simp only [is_insufficient_material]
    by_cases h1 : pieces.length -
        pieces.countP (fun p => decide (p.piece_type = PieceType.Knight)) -
        pieces.countP (fun p => decide (p.piece_type = PieceType.Bishop)) -
        pieces.countP (fun p => decide (p.piece_type = PieceType.King)) > 0
    · rw [if_pos h1]
      constructor
      · intro hfalse
        exact absurd hfalse (by simp)
      · intro hrhs
        have hoc := hallP.mp hrhs.1
        exact absurd h1 (by omega)
    · rw [if_neg h1]
      by_cases h2 : pieces.countP
          (fun p => decide (p.piece_type = PieceType.King)) = 0
      · rw [if_pos h2]
        constructor
        · intro hnone
          exact absurd hnone (by simp)
        · intro hrhs
          obtain ⟨-, hk2, -⟩ := hrhs
          exact absurd hk2 (by omega)
      · rw [if_neg h2]
        have hall : ∀ p ∈ pieces, p.piece_type = PieceType.King ∨
            p.piece_type = PieceType.Bishop ∨
            p.piece_type = PieceType.Knight := by
          rw [hallP]
          omega
        split_ifs with h3 h4 h5
        · constructor
          · intro _
            exact ⟨hall, by omega, by omega⟩
          · intro _
            rfl
        · constructor
          · intro _
            exact ⟨hall, by omega, by omega⟩
          · intro _
            rfl
        · constructor
          · intro _
            exact ⟨hall, by omega, by omega⟩
          · intro _
            rfl
        · constructor
          · intro hfalse
            exact absurd hfalse (by simp)
          · intro hrhs
            obtain ⟨-, -, hbn⟩ := hrhs
            exact absurd hbn (by omega)
  · intro g hmoves hcheck
    have hne : (get_all_moves g).isEmpty = false := by
      cases hge : get_all_moves g with
      | nil => exact absurd hge hmoves
      | cons a t => rfl
    simp only [get_game_state, hne, hcheck, Bool.false_eq_true, if_false]
    cases hw : is_insufficient_material (activePieces g.get_board
        Color.White) with
    | none => simp
    | some wv =>
      cases wv with
      | false =>
        by_cases hf : g.can_trigger_fifty_move_rule <;> simp [hf]
      | true =>
        cases hb : is_insufficient_material (activePieces g.get_board
            Color.Black) with
        | none => simp
        | some bv =>
          cases bv with
          | false =>
            by_cases hf : g.can_trigger_fifty_move_rule <;> simp [hf]
          | true => simp

/-- Witness for C5: the 3x3 King+Bishop versus lone King position (moves
exist, no check, both sides insufficient) classifies InsufficientMaterial. -/
theorem insufficient_material_rule_witness :
    get_game_state kbvkGame =
      some (GameState.InsufficientMaterial, get_all_moves kbvkGame) :=
  (insufficient_material_rule.2 kbvkGame (by decide) (by decide)).mpr
    ⟨by decide, by decide⟩

theorem slideWalk_not_castle (b : GameBoard) (me : ChessPiece)
    (orig : Nat × Nat) (dx dy : Int) :
    ∀ (fuel : Nat) (x y : Int) (m : ChessMoveType),
      m ∈ slideWalk b me orig dx dy fuel x y → m.isCastle = false := by
  intro fuel
  induction fuel with
  | zero =>
    intro x y m h
    simp [slideWalk] at h
  | succ n ih =>
    intro x y m h
    unfold slideWalk at h
    split at h
    · split at h
      · split at h
        · exact absurd h (by simp)
        · have hm := List.mem_singleton.mp h
          subst hm
          rfl
      · rcases List.mem_cons.mp h with h₁ | h₁
        · subst h₁
          rfl
        · exact ih _ _ _ h₁
    · exact absurd h (by simp)

theorem slidingMoves_not_castle (b : GameBoard) (me : ChessPiece)
    (orig : Nat × Nat) (dirs : List (Int × Int)) (m : ChessMoveType)
    (h : m ∈ slidingMoves b me orig dirs) : m.isCastle = false := by
  unfold slidingMoves at h
  rw [List.mem_flatMap] at h
  obtain ⟨d, -, h⟩ := h
  exact slideWalk_not_castle b me orig d.1 d.2 _ _ _ m h

theorem leapMoves_not_castle (b : GameBoard) (me : ChessPiece)
    (orig : Nat × Nat) (offsets : List (Int × Int)) (m : ChessMoveType)
    (h : m ∈ leapMoves b me orig offsets) : m.isCastle = false := by
  unfold leapMoves at h
  rw [List.mem_filterMap] at h
  obtain ⟨o, -, heq⟩ := h
  unfold leapStep at heq
  simp only [] at heq
  split at heq
  · split at heq
    · split at heq
      · exact absurd heq (by simp)
      · injection heq with hm
        rw [← hm]
        rfl
    · injection heq with hm
      rw [← hm]
      rfl
  · exact absurd heq (by simp)

theorem pawnMovesCore_not_castle (b : GameBoard) (me : ChessPiece) (c r : Nat)
    (last : Option ChessMoveType) (d startRank promoRank : Int)
    (m : ChessMoveType)
    (h : m ∈ pawnMovesCore b me c r last d startRank promoRank) :
    m.isCastle = false := by
  unfold pawnMovesCore at h
  simp only [List.mem_append] at h
  rcases h with ((h | h) | h) | h
  · unfold pawnFwd1 at h
    split at h
    · split at h
      · rw [List.mem_map] at h
        obtain ⟨pt, -, hm⟩ := h
        rw [← hm]
        rfl
      · have hm := List.mem_singleton.mp h
        subst hm
        rfl
    · exact absurd h (by simp)
  · unfold pawnFwd2 at h
    split at h
    · have hm := List.mem_singleton.mp h
      subst hm
      rfl
    · exact absurd h (by simp)
  · rw [List.mem_flatMap] at h
    obtain ⟨dc, -, h⟩ := h
    unfold pawnCapStep at h
    split at h
    · split at h
      · split at h
        · rw [List.mem_map] at h
          obtain ⟨pt, -, hm⟩ := h
          rw [← hm]
          rfl
        · have hm := List.mem_singleton.mp h
          subst hm
          rfl
      · exact absurd h (by simp)
    · exact absurd h (by simp)
  · rw [List.mem_flatMap] at h
    obtain ⟨dc, -, h⟩ := h
    unfold pawnEpStep at h
    split at h
    · split at h
      · have hm := List.mem_singleton.mp h
        subst hm
        rfl
      · exact absurd h (by simp)
    · exact absurd h (by simp)

theorem pawnMoves_not_castle (b : GameBoard) (me : ChessPiece) (c r : Nat)
    (last : Option ChessMoveType) (m : ChessMoveType)
    (h : m ∈ pawnMoves b me c r last) : m.isCastle = false := by
  unfold pawnMoves at h
  exact pawnMovesCore_not_castle _ _ _ _ _ _ _ _ _ h

theorem get_legal_moves_not_castle (piece : ChessPiece) (col row : Nat)
    (b : GameBoard) (last : Option ChessMoveType) (m : ChessMoveType)
    (h : m ∈ piece.get_legal_moves col row b last) : m.isCastle = false := by
  unfold ChessPiece.get_legal_moves at h
  split at h
  · exact pawnMoves_not_castle _ _ _ _ _ _ h
  · exact leapMoves_not_castle _ _ _ _ _ h
  · exact slidingMoves_not_castle _ _ _ _ _ h
  · exact slidingMoves_not_castle _ _ _ _ _ h
  · exact slidingMoves_not_castle _ _ _ _ _ h
  · exact leapMoves_not_castle _ _ _ _ _ h

/-- C2: the legal-move list never contains a castle move — the castling block
of `get_all_moves` is commented out in the source (`// TODO refactor chess
move for castling`), so even in the castle-ready position, where the source's
own `can_castle_long` affirms every precondition, no castle is produced. -/
theorem castling_never_generated :
    (∀ (g : Game) (m : ChessMoveType), m ∈ get_all_moves g →
      m.isCastle = false) ∧
    can_castle_long Color.White castleReadyBoard = some true := by
  constructor
  · intro g m h
    unfold get_all_moves at h
    rw [List.mem_flatMap] at h
    obtain ⟨cr, -, hm⟩ := h
    split at hm
    · split at hm
      · rw [List.mem_filter] at hm
        exact get_legal_moves_not_castle _ _ _ _ _ _ hm.1
      · exact absurd hm (by simp)
    · exact absurd hm (by simp)
  · decide

/-- Witness for C2: a concrete member of the castle-ready game's move list,
which indeed is not a castle. -/
theorem castling_never_generated_witness :
    (ChessMoveType.Move (0, 0) (1, 0)
      ⟨Color.White, PieceType.Rook⟩).isCastle = false :=
  castling_never_generated.1 castleReadyGame _ (by decide)

theorem colChar_toNat (r : Nat) (h : r < 26) :
    (Char.ofNat (r + 97)).toNat = r + 97 := by
  interval_cases r <;> rfl

theorem colChar_alpha (r : Nat) (h : r < 26) :
    isAsciiAlphabetic (Char.ofNat (r + 97)) = true := by
  interval_cases r <;> rfl

theorem digChar_toNat (d : Nat) (h : d < 10) :
    (Char.ofNat (d + 48)).toNat = d + 48 := by
  interval_cases d <;> rfl

theorem digChar_digit (d : Nat) (h : d < 10) :
    isAsciiDigit (Char.ofNat (d + 48)) = true := by
  interval_cases d <;> rfl

theorem digChar_not_alpha (d : Nat) (h : d < 10) :
    isAsciiAlphabetic (Char.ofNat (d + 48)) = false := by
  interval_cases d <;> rfl

theorem colDigitsLoop_alpha (n : Nat) :
    ∀ c ∈ colDigitsLoop n, isAsciiAlphabetic c = true := by
  induction n using Nat.strong_induction_on with
  | _ n ih =>
    intro c hc
    unfold colDigitsLoop at hc
    by_cases h : n / 26 = 0
    · rw [if_pos h] at hc
      rw [List.mem_singleton.mp hc]
      exact colChar_alpha _ (Nat.mod_lt _ (by norm_num))
    · rw [if_neg h] at hc
      rcases List.mem_cons.mp hc with h₁ | h₁
      · rw [h₁]
        exact colChar_alpha _ (Nat.mod_lt _ (by norm_num))
      · have hlt : n / 26 - 1 < n := by
          have := Nat.div_le_self n 26
          omega
        exact ih _ hlt c h₁

theorem colDigitsLoop_ne_nil (n : Nat) : colDigitsLoop n ≠ [] := by
  unfold colDigitsLoop
  by_cases h : n / 26 = 0
  · rw [if_pos h]
    simp
  · rw [if_neg h]
    simp

theorem littleVal_colDigitsLoop (n : Nat) :
    littleVal (colDigitsLoop n) = n + 1 := by
  induction n using Nat.strong_induction_on with
  | _ n ih =>
    unfold colDigitsLoop
    have hmod : n % 26 < 26 := Nat.mod_lt _ (by norm_num)
    have hdm := Nat.div_add_mod n 26
    by_cases h : n / 26 = 0
    · rw [if_pos h]
      simp only [littleVal, colChar_toNat _ hmod]
      omega
    · rw [if_neg h]
      have hlt : n / 26 - 1 < n := by
        have := Nat.div_le_self n 26
        omega
      simp only [littleVal, colChar_toNat _ hmod, ih _ hlt]
      omega

theorem bigVal_append (xs ys : List Char) :
    bigVal (xs ++ ys) = bigVal xs * 26 ^ ys.length + bigVal ys := by
  induction xs with
  | nil => simp [bigVal]
  | cons c t ih =>
    show (c.toNat - 97 + 1) * 26 ^ (t ++ ys).length + bigVal (t ++ ys) =
      ((c.toNat - 97 + 1) * 26 ^ t.length + bigVal t) * 26 ^ ys.length +
        bigVal ys
    rw [ih, List.length_append, pow_add]
    ring

theorem bigVal_reverse (L : List Char) : bigVal L.reverse = littleVal L := by
  induction L with
  | nil => rfl
  | cons c t ih =>
    rw [List.reverse_cons, bigVal_append, ih]
    show littleVal t * 26 ^ 1 + ((c.toNat - 97 + 1) * 26 ^ 0 + 0) =
      (c.toNat - 97 + 1) + 26 * littleVal t
    ring

theorem columnGo_bigVal (cs : List Char) :
    ∀ (i len : Nat), i + cs.length = len → columnGo len cs i = bigVal cs := by
  induction cs with
  | nil => intro i len h; rfl
  | cons c t ih =>
    intro i len h
    simp only [columnGo, bigVal]
    have hexp : len - i - 1 = t.length := by
      simp only [List.length_cons] at h
      omega
    rw [hexp, ih (i + 1) len (by simp only [List.length_cons] at h; omega),
      Nat.mul_comm]

theorem splitLoop_cons_alpha (c : Char) (rest acc racc : List Char)
    (hc : isAsciiAlphabetic c = true) :
    splitLoop (c :: rest) true acc racc =
      splitLoop rest true (acc ++ [c]) racc := by
  simp [splitLoop, hc]

theorem splitLoop_cons_digit_start (c : Char) (rest acc racc : List Char)
    (hca : isAsciiAlphabetic c = false) (hcd : isAsciiDigit c = true) :
    splitLoop (c :: rest) true acc racc =
      splitLoop rest false acc (racc ++ [c]) := by
  simp [splitLoop, hca, hcd]

theorem splitLoop_cons_digit (c : Char) (rest acc racc : List Char)
    (hcd : isAsciiDigit c = true) :
    splitLoop (c :: rest) false acc racc =
      splitLoop rest false acc (racc ++ [c]) := by
  simp [splitLoop, hcd]

theorem splitLoop_letters (ls : List Char) :
    ∀ (rest : List Char) (acc racc : List Char),
      (∀ c ∈ ls, isAsciiAlphabetic c = true) →
      splitLoop (ls ++ rest) true acc racc =
        splitLoop rest true (acc ++ ls) racc := by
  induction ls with
  | nil => intro rest acc racc _; simp
  | cons c t ih =>
    intro rest acc racc hall
    have hc : isAsciiAlphabetic c = true := hall c (List.mem_cons_self c t)
    have hstep : (c :: t) ++ rest = c :: (t ++ rest) := rfl
    rw [hstep, splitLoop_cons_alpha c (t ++ rest) acc racc hc,
      ih rest (acc ++ [c]) racc
        (fun x hx => hall x (List.mem_cons_of_mem c hx)),
      List.append_assoc]
    rfl

theorem splitLoop_digits_tail (ds : List Char) :
    ∀ (acc racc : List Char),
      (∀ c ∈ ds, isAsciiDigit c = true) →
      splitLoop ds false acc racc = some (acc, racc ++ ds) := by
  induction ds with
  | nil => intro acc racc _; simp [splitLoop]
  | cons c t ih =>
    intro acc racc hall
    have hc : isAsciiDigit c = true := hall c (List.mem_cons_self c t)
    rw [splitLoop_cons_digit c t acc racc hc,
      ih acc (racc ++ [c]) (fun x hx => hall x (List.mem_cons_of_mem c hx)),
      List.append_assoc]
    rfl

theorem splitLoop_digits (ds : List Char) (acc racc : List Char)
    (hne : ds ≠ [])
    (hall : ∀ c ∈ ds, isAsciiDigit c = true ∧ isAsciiAlphabetic c = false) :
    splitLoop ds true acc racc = some (acc, racc ++ ds) := by
  cases ds with
  | nil => exact absurd rfl hne
  | cons c t =>
    have hc := hall c (List.mem_cons_self c t)
    rw [splitLoop_cons_digit_start c t acc racc hc.2 hc.1,
      splitLoop_digits_tail t acc (racc ++ [c])
        (fun x hx => (hall x (List.mem_cons_of_mem c hx)).1),
      List.append_assoc]
    rfl

theorem decimalChars_digit (n : Nat) :
    ∀ c ∈ decimalChars n, isAsciiDigit c = true ∧ isAsciiAlphabetic c = false := by
  intro c hc
  unfold decimalChars at hc
  rw [List.mem_map] at hc
  obtain ⟨d, hd, hm⟩ := hc
  rw [List.mem_reverse] at hd
  have hlt : d < 10 := Nat.digits_lt_base (by norm_num) hd
  rw [← hm]
  exact ⟨digChar_digit d hlt, digChar_not_alpha d hlt⟩

theorem decimalChars_ne_nil (n : Nat) (h : n ≠ 0) : decimalChars n ≠ [] := by
  unfold decimalChars
  simp [Nat.digits_ne_nil_iff_ne_zero.mpr h]

theorem parseDecimal_decimalChars (n : Nat) :
    parseDecimal (decimalChars n) = n := by
  have key : ∀ (ds : List Nat) (a : Nat), (∀ d ∈ ds, d < 10) →
      ((ds.reverse.map (fun d => Char.ofNat (d + 48))).foldl
        (fun acc c => acc * 10 + (c.toNat - 48)) a) =
      a * 10 ^ ds.length + Nat.ofDigits 10 ds := by
    intro ds
    induction ds with
    | nil => intro a _; simp [Nat.ofDigits]
    | cons d t ih =>
      intro a hall
      simp only [List.reverse_cons, List.map_append, List.foldl_append,
        List.map_cons, List.map_nil, List.foldl_cons, List.foldl_nil,
        List.length_cons, Nat.ofDigits_cons]
      rw [ih a (fun x hx => hall x (List.mem_cons_of_mem d hx))]
      have hd : d < 10 := hall d (List.mem_cons_self d t)
      rw [digChar_toNat d hd]
      have : d + 48 - 48 = d := by omega
      rw [this, pow_succ]
      ring
  unfold parseDecimal decimalChars
  have h := key (Nat.digits 10 n) 0
    (fun d hd => Nat.digits_lt_base (by norm_num) hd)
  simpa [Nat.ofDigits_digits] using h

/-- C10: square-name translation round-trips: parsing the rendered name of
any (column, row) coordinate returns exactly that coordinate. -/
theorem square_name_round_trip (column row : Nat) :
    get_column_and_row_from_square_name
      (get_square_name_from_row_and_col column row) =
      Except.ok (column, row) := by
  unfold get_square_name_from_row_and_col get_column_and_row_from_square_name
  have hsplit : splitLoop ((colDigitsLoop column).reverse ++
      decimalChars (row + 1)) true [] [] =
      some ((colDigitsLoop column).reverse, decimalChars (row + 1)) := by
    rw [splitLoop_letters _ _ _ _
      (fun c hc => colDigitsLoop_alpha column c (List.mem_reverse.mp hc))]
    rw [splitLoop_digits _ _ _
      (decimalChars_ne_nil (row + 1) (by omega)) (decimalChars_digit (row + 1))]
    simp
  rw [hsplit]
  have hcne : ((colDigitsLoop column).reverse).isEmpty = false := by
    rw [List.isEmpty_eq_false]
    simp [colDigitsLoop_ne_nil column]
  have hdne : (decimalChars (row + 1)).isEmpty = false := by
    rw [List.isEmpty_eq_false]
    exact decimalChars_ne_nil (row + 1) (by omega)
  simp only [hcne, hdne, Bool.false_eq_true, or_self, if_false]
  rw [columnGo_bigVal _ 0 _ (by simp), bigVal_reverse,
    littleVal_colDigitsLoop, parseDecimal_decimalChars]
  simp

theorem opposite_opposite (c : Color) :
    c.opposite_color.opposite_color = c := by
  cases c <;> rfl

theorem opposite_inj (a b : Color) :
    (a.opposite_color = b.opposite_color) ↔ a = b := by
  cases a <;> cases b <;> simp [Color.opposite_color]

theorem opposite_eq_iff (a b : Color) :
    (a.opposite_color = b) ↔ a = b.opposite_color := by
  cases a <;> cases b <;> simp [Color.opposite_color]

theorem inBoundsI_iff (b : GameBoard) (x y : Int) :
    inBoundsI b x y = true ↔
      (0 ≤ x ∧ x < (b.width : Int) ∧ 0 ≤ y ∧ y < (b.height : Int)) := by
  simp [inBoundsI, and_assoc]

theorem pieceAt_mirror (b : GameBoard) (c r : Nat) :
    (mirrorBoard b).pieceAt c r =
      if c < b.width ∧ r < b.height then
        (b.pieceAt (b.width - 1 - c) (b.height - 1 - r)).map swapPiece
      else none := by
  unfold mirrorBoard GameBoard.pieceAt
  simp only [findSquare_mkGrid]
  by_cases h : c < b.width ∧ r < b.height
  · rw [if_pos h]
    rw [if_pos h]
  · rw [if_neg h]
    rw [if_neg h]

theorem inBoundsI_mirror (b : GameBoard) (x y : Int) :
    inBoundsI (mirrorBoard b) x y =
      inBoundsI b ((b.width : Int) - 1 - x) ((b.height : Int) - 1 - y) := by
  have hbe : ∀ (p q : Bool), (p = true ↔ q = true) → p = q := by decide
  apply hbe
  rw [inBoundsI_iff, inBoundsI_iff]
  show (0 ≤ x ∧ x < (b.width : Int) ∧ 0 ≤ y ∧ y < (b.height : Int)) ↔ _
  constructor <;> intro h <;>
    exact ⟨by omega, by omega, by omega, by omega⟩

theorem pieceAtI_mirror (b : GameBoard) (x y : Int) :
    pieceAtI (mirrorBoard b) x y =
      (pieceAtI b ((b.width : Int) - 1 - x)
        ((b.height : Int) - 1 - y)).map swapPiece := by
  unfold pieceAtI
  rw [inBoundsI_mirror]
  by_cases h : inBoundsI b ((b.width : Int) - 1 - x)
      ((b.height : Int) - 1 - y) = true
  · rw [if_pos h]
    rw [if_pos h]
    rw [pieceAt_mirror]
    have hb := (inBoundsI_iff _ _ _).mp h
    have hx : x.toNat < b.width ∧ y.toNat < b.height := by
      constructor <;> omega
    rw [if_pos hx]
    have hc1 : b.width - 1 - x.toNat = ((b.width : Int) - 1 - x).toNat := by
      omega
    have hc2 : b.height - 1 - y.toNat = ((b.height : Int) - 1 - y).toNat := by
      omega
    rw [hc1, hc2]
  · rw [if_neg h]
    rw [if_neg h]
    rfl

theorem mirrorPos_toPos (w h : Nat) (x y : Int) (h1 : 0 ≤ x)
    (h2 : x < (w : Int)) (h3 : 0 ≤ y) (h4 : y < (h : Int)) :
    mirrorPos w h (toPos x y) =
      toPos ((w : Int) - 1 - x) ((h : Int) - 1 - y) := by
  unfold mirrorPos toPos
  simp only [Prod.mk.injEq]
  constructor <;> omega

theorem slideWalk_succ (b : GameBoard) (me : ChessPiece) (orig : Nat × Nat)
    (dx dy : Int) (n : Nat) (x y : Int) :
    slideWalk b me orig dx dy (n + 1) x y =
      if inBoundsI b x y then
        match pieceAtI b x y with
        | some p =>
          if p.color = me.color then []
          else [ChessMoveType.Take orig (toPos x y) me p]
        | none =>
          ChessMoveType.Move orig (toPos x y) me ::
            slideWalk b me orig dx dy n (x + dx) (y + dy)
      else [] := rfl

theorem slideWalk_mirror (b : GameBoard) (me : ChessPiece) (orig : Nat × Nat)
    (dx dy : Int) (fuel : Nat) :
    ∀ (x y : Int),
      slideWalk (mirrorBoard b) (swapPiece me)
          (mirrorPos b.width b.height orig) (-dx) (-dy) fuel
          ((b.width : Int) - 1 - x) ((b.height : Int) - 1 - y) =
        (slideWalk b me orig dx dy fuel x y).map
          (mirrorMove b.width b.height) := by
  induction fuel with
  | zero => intro x y; rfl
  | succ n ih =>
    intro x y
    rw [slideWalk_succ, slideWalk_succ, inBoundsI_mirror, pieceAtI_mirror]
    have e1 : (b.width : Int) - 1 - ((b.width : Int) - 1 - x) = x := by ring
    have e2 : (b.height : Int) - 1 - ((b.height : Int) - 1 - y) = y := by ring
    rw [e1, e2]
    by_cases h : inBoundsI b x y = true
    · rw [if_pos h, if_pos h]
      have hb := (inBoundsI_iff _ _ _).mp h
      cases hp : pieceAtI b x y with
      | none =>
        simp only [Option.map_none', List.map_cons]
        have hhead : ChessMoveType.Move (mirrorPos b.width b.height orig)
            (toPos ((b.width : Int) - 1 - x) ((b.height : Int) - 1 - y))
            (swapPiece me) =
            mirrorMove b.width b.height
              (ChessMoveType.Move orig (toPos x y) me) := by
          simp only [mirrorMove]
          rw [mirrorPos_toPos b.width b.height x y hb.1 hb.2.1 hb.2.2.1
            hb.2.2.2]
        rw [← hhead]
        have e3 : (b.width : Int) - 1 - x + -dx =
            (b.width : Int) - 1 - (x + dx) := by ring
        have e4 : (b.height : Int) - 1 - y + -dy =
            (b.height : Int) - 1 - (y + dy) := by ring
        rw [e3, e4, ih (x + dx) (y + dy)]
      | some p =>
        simp only [Option.map_some']
        by_cases hc : p.color = me.color
        · have hc2 : (swapPiece p).color = (swapPiece me).color := by
            simp [swapPiece, hc]
          rw [if_pos hc2, if_pos hc]
          rfl
        · have hc2 : ¬ (swapPiece p).color = (swapPiece me).color := by
            simp only [swapPiece]
            rw [opposite_inj]
            exact hc
          rw [if_neg hc2, if_neg hc]
          simp only [List.map_cons, List.map_nil, mirrorMove]
          rw [mirrorPos_toPos b.width b.height x y hb.1 hb.2.1 hb.2.2.1
            hb.2.2.2]
    · rw [if_neg h, if_neg h]
      rfl

theorem pieceAtI_some_bounds {b : GameBoard} {x y : Int} {p : ChessPiece}
    (h : pieceAtI b x y = some p) : inBoundsI b x y = true := by
  unfold pieceAtI at h
  by_cases hb : inBoundsI b x y = true
  · exact hb
  · rw [if_neg hb] at h
    exact absurd h (by simp)

theorem isNone_map_swap (o : Option ChessPiece) :
    (o.map swapPiece).isNone = o.isNone := by
  cases o <;> rfl

theorem pawnFwd1_mirror (b : GameBoard) (me : ChessPiece) (c r : Nat)
    (hc : c < b.width) (hr : r < b.height) (d promoRank : Int) :
    pawnFwd1 (mirrorBoard b) (swapPiece me) (b.width - 1 - c)
        (b.height - 1 - r) (-d) ((b.height : Int) - 1 - promoRank) =
      (pawnFwd1 b me c r d promoRank).map (mirrorMove b.width b.height) := by
  unfold pawnFwd1
  have eC : ((b.width - 1 - c : Nat) : Int) = (b.width : Int) - 1 - c := by
    omega
  have eR : ((b.height - 1 - r : Nat) : Int) + -d =
      (b.height : Int) - 1 - ((r : Int) + d) := by omega
  rw [eC, eR, inBoundsI_mirror, pieceAtI_mirror]
  have e1 : (b.width : Int) - 1 - ((b.width : Int) - 1 - (c : Int)) =
      (c : Int) := by ring
  have e2 : (b.height : Int) - 1 -
      ((b.height : Int) - 1 - ((r : Int) + d)) = (r : Int) + d := by ring
  rw [e1, e2, isNone_map_swap]
  by_cases h : inBoundsI b (c : Int) ((r : Int) + d) = true ∧
      (pieceAtI b (c : Int) ((r : Int) + d)).isNone = true
  · rw [if_pos h, if_pos h]
    have hb := (inBoundsI_iff _ _ _).mp h.1
    have hcb : (0 : Int) ≤ c := by omega
    have hcw : (c : Int) < (b.width : Int) := by omega
    by_cases hpm : (r : Int) + d = promoRank
    · have hpm2 : (b.height : Int) - 1 - ((r : Int) + d) =
          (b.height : Int) - 1 - promoRank := by rw [hpm]
      rw [if_pos hpm2, if_pos hpm, List.map_map]
      apply List.map_congr_left
      intro pt _
      simp only [Function.comp, mirrorMove]
      rw [mirrorPos_toPos b.width b.height _ _ hcb hcw hb.2.2.1 hb.2.2.2]
      rfl
    · have hpm2 : ¬ ((b.height : Int) - 1 - ((r : Int) + d) =
          (b.height : Int) - 1 - promoRank) := by
        intro hcon
        exact hpm (by omega)
      rw [if_neg hpm2, if_neg hpm]
      simp only [List.map_cons, List.map_nil, mirrorMove]
      rw [mirrorPos_toPos b.width b.height _ _ hcb hcw hb.2.2.1 hb.2.2.2]
      rfl
  · rw [if_neg h, if_neg h]
    rfl

theorem pawnFwd2_mirror (b : GameBoard) (me : ChessPiece) (c r : Nat)
    (hc : c < b.width) (hr : r < b.height) (d startRank : Int) :
    pawnFwd2 (mirrorBoard b) (swapPiece me) (b.width - 1 - c)
        (b.height - 1 - r) (-d) ((b.height : Int) - 1 - startRank) =
      (pawnFwd2 b me c r d startRank).map (mirrorMove b.width b.height) := by
  unfold pawnFwd2
  have eC : ((b.width - 1 - c : Nat) : Int) = (b.width : Int) - 1 - c := by
    omega
  have eR1 : ((b.height - 1 - r : Nat) : Int) + -d =
      (b.height : Int) - 1 - ((r : Int) + d) := by omega
  have eR2 : ((b.height - 1 - r : Nat) : Int) + 2 * -d =
      (b.height : Int) - 1 - ((r : Int) + 2 * d) := by omega
  rw [eC, eR1, eR2, inBoundsI_mirror, inBoundsI_mirror, pieceAtI_mirror,
    pieceAtI_mirror]
  have e1 : (b.width : Int) - 1 - ((b.width : Int) - 1 - (c : Int)) =
      (c : Int) := by ring
  have e2 : (b.height : Int) - 1 -
      ((b.height : Int) - 1 - ((r : Int) + d)) = (r : Int) + d := by ring
  have e3 : (b.height : Int) - 1 -
      ((b.height : Int) - 1 - ((r : Int) + 2 * d)) = (r : Int) + 2 * d := by
    ring
  rw [e1, e2, e3, isNone_map_swap, isNone_map_swap]
  by_cases h : (r : Int) = startRank ∧
      (inBoundsI b (c : Int) ((r : Int) + d) = true ∧
        (pieceAtI b (c : Int) ((r : Int) + d)).isNone = true) ∧
      (inBoundsI b (c : Int) ((r : Int) + 2 * d) = true ∧
        (pieceAtI b (c : Int) ((r : Int) + 2 * d)).isNone = true)
  · have h2 : ((b.height - 1 - r : Nat) : Int) =
        (b.height : Int) - 1 - startRank ∧
        (inBoundsI b (c : Int) ((r : Int) + d) = true ∧
          (pieceAtI b (c : Int) ((r : Int) + d)).isNone = true) ∧
        (inBoundsI b (c : Int) ((r : Int) + 2 * d) = true ∧
          (pieceAtI b (c : Int) ((r : Int) + 2 * d)).isNone = true) := by
      refine ⟨?_, h.2⟩
      have := h.1
      omega
    rw [if_pos h2, if_pos h]
    have hb := (inBoundsI_iff _ _ _).mp h.2.2.1
    simp only [List.map_cons, List.map_nil, mirrorMove]
    rw [mirrorPos_toPos b.width b.height _ _ (by omega) (by omega) hb.2.2.1
      hb.2.2.2]
    rfl
  · have h2 : ¬ (((b.height - 1 - r : Nat) : Int) =
        (b.height : Int) - 1 - startRank ∧
        (inBoundsI b (c : Int) ((r : Int) + d) = true ∧
          (pieceAtI b (c : Int) ((r : Int) + d)).isNone = true) ∧
        (inBoundsI b (c : Int) ((r : Int) + 2 * d) = true ∧
          (pieceAtI b (c : Int) ((r : Int) + 2 * d)).isNone = true)) := by
      intro hcon
      apply h
      refine ⟨?_, hcon.2⟩
      have := hcon.1
      omega
    rw [if_neg h2, if_neg h]
    rfl

theorem pawnCapStep_mirror (b : GameBoard) (me : ChessPiece) (c r : Nat)
    (hc : c < b.width) (hr : r < b.height) (d promoRank dc : Int) :
    pawnCapStep (mirrorBoard b) (swapPiece me) (b.width - 1 - c)
        (b.height - 1 - r) (-d) ((b.height : Int) - 1 - promoRank) (-dc) =
      (pawnCapStep b me c r d promoRank dc).map
        (mirrorMove b.width b.height) := by
  unfold pawnCapStep
  have eC : ((b.width - 1 - c : Nat) : Int) + -dc =
      (b.width : Int) - 1 - ((c : Int) + dc) := by omega
  have eR : ((b.height - 1 - r : Nat) : Int) + -d =
      (b.height : Int) - 1 - ((r : Int) + d) := by omega
  rw [eC, eR, pieceAtI_mirror]
  have e1 : (b.width : Int) - 1 -
      ((b.width : Int) - 1 - ((c : Int) + dc)) = (c : Int) + dc := by ring
  have e2 : (b.height : Int) - 1 -
      ((b.height : Int) - 1 - ((r : Int) + d)) = (r : Int) + d := by ring
  rw [e1, e2]
  cases hp : pieceAtI b ((c : Int) + dc) ((r : Int) + d) with
  | none => rfl
  | some p =>
    have hb := (inBoundsI_iff _ _ _).mp (pieceAtI_some_bounds hp)
    simp only [Option.map_some']
    by_cases hcol : p.color = me.color
    · have hcol2 : ¬ (swapPiece p).color ≠ (swapPiece me).color := by
        simp only [swapPiece, ne_eq, not_not]
        rw [opposite_inj]
        exact hcol
      have hcol3 : ¬ p.color ≠ me.color := not_not_intro hcol
      rw [if_neg hcol2, if_neg hcol3]
      rfl
    · have hcol2 : (swapPiece p).color ≠ (swapPiece me).color := by
        simp only [swapPiece, ne_eq]
        rw [opposite_inj]
        exact hcol
      rw [if_pos hcol2, if_pos hcol]
      by_cases hpm : (r : Int) + d = promoRank
      · have hpm2 : (b.height : Int) - 1 - ((r : Int) + d) =
            (b.height : Int) - 1 - promoRank := by rw [hpm]
        rw [if_pos hpm2, if_pos hpm, List.map_map]
        apply List.map_congr_left
        intro pt _
        simp only [Function.comp, mirrorMove]
        rw [mirrorPos_toPos b.width b.height _ _ hb.1 hb.2.1 hb.2.2.1
          hb.2.2.2]
        rfl
      · have hpm2 : ¬ ((b.height : Int) - 1 - ((r : Int) + d) =
            (b.height : Int) - 1 - promoRank) := by
          intro hcon
          exact hpm (by omega)
        rw [if_neg hpm2, if_neg hpm]
        simp only [List.map_cons, List.map_nil, mirrorMove]
        rw [mirrorPos_toPos b.width b.height _ _ hb.1 hb.2.1 hb.2.2.1
          hb.2.2.2]
        rfl

theorem pawnEpStep_none (me : ChessPiece) (c r : Nat) (d dc : Int) :
    pawnEpStep me c r none d dc = [] := rfl

theorem mem_pm_int (dc : Int) (h : dc ∈ ([-1, 1] : List Int)) :
    -dc ∈ ([-1, 1] : List Int) := by
  rcases List.mem_cons.mp h with h₁ | h₁
  · subst h₁
    decide
  · rcases List.mem_cons.mp h₁ with h₂ | h₂
    · subst h₂
      decide
    · exact absurd h₂ (by simp)

theorem pawnMovesCore_mirror (b : GameBoard) (me : ChessPiece) (c r : Nat)
    (hc : c < b.width) (hr : r < b.height) (d startRank promoRank : Int)
    (m : ChessMoveType) :
    m ∈ pawnMovesCore (mirrorBoard b) (swapPiece me) (b.width - 1 - c)
        (b.height - 1 - r) none (-d) ((b.height : Int) - 1 - startRank)
        ((b.height : Int) - 1 - promoRank) ↔
      ∃ m0 ∈ pawnMovesCore b me c r none d startRank promoRank,
        mirrorMove b.width b.height m0 = m := by
  unfold pawnMovesCore
  rw [pawnFwd1_mirror b me c r hc hr d promoRank,
    pawnFwd2_mirror b me c r hc hr d startRank]
  have hep1 : ([-1, 1] : List Int).flatMap (pawnEpStep (swapPiece me)
      (b.width - 1 - c) (b.height - 1 - r) none (-d)) = [] := rfl
  have hep2 : ([-1, 1] : List Int).flatMap (pawnEpStep me c r none d) =
      [] := rfl
  rw [hep1, hep2, List.append_nil, List.append_nil]
  constructor
  · intro hm
    rcases List.mem_append.mp hm with hm | hm
    · rcases List.mem_append.mp hm with hm | hm
      · obtain ⟨m0, hm0, hmm⟩ := List.mem_map.mp hm
        exact ⟨m0, List.mem_append.mpr (Or.inl (List.mem_append.mpr
          (Or.inl hm0))), hmm⟩
      · obtain ⟨m0, hm0, hmm⟩ := List.mem_map.mp hm
        exact ⟨m0, List.mem_append.mpr (Or.inl (List.mem_append.mpr
          (Or.inr hm0))), hmm⟩
    · obtain ⟨dc, hdc, hmem⟩ := List.mem_flatMap.mp hm
      have key := pawnCapStep_mirror b me c r hc hr d promoRank (-dc)
      rw [neg_neg] at key
      rw [key] at hmem
      obtain ⟨m0, hm0, hmm⟩ := List.mem_map.mp hmem
      exact ⟨m0, List.mem_append.mpr (Or.inr (List.mem_flatMap.mpr
        ⟨-dc, mem_pm_int dc hdc, hm0⟩)), hmm⟩
  · rintro ⟨m0, hm0, hmm⟩
    rcases List.mem_append.mp hm0 with hm0 | hm0
    · rcases List.mem_append.mp hm0 with hm0 | hm0
      · exact List.mem_append.mpr (Or.inl (List.mem_append.mpr (Or.inl
          (List.mem_map.mpr ⟨m0, hm0, hmm⟩))))
      · exact List.mem_append.mpr (Or.inl (List.mem_append.mpr (Or.inr
          (List.mem_map.mpr ⟨m0, hm0, hmm⟩))))
    · obtain ⟨dc, hdc, hmem⟩ := List.mem_flatMap.mp hm0
      apply List.mem_append.mpr
      apply Or.inr
      apply List.mem_flatMap.mpr
      refine ⟨-dc, mem_pm_int dc hdc, ?_⟩
      rw [pawnCapStep_mirror b me c r hc hr d promoRank dc]
      exact List.mem_map.mpr ⟨m0, hmem, hmm⟩

theorem pawnMoves_mirror (b : GameBoard) (me : ChessPiece) (c r : Nat)
    (hc : c < b.width) (hr : r < b.height) (m : ChessMoveType) :
    m ∈ pawnMoves (mirrorBoard b) (swapPiece me) (b.width - 1 - c)
        (b.height - 1 - r) none ↔
      ∃ m0 ∈ pawnMoves b me c r none,
        mirrorMove b.width b.height m0 = m := by
  unfold pawnMoves
  by_cases hcol : me.color = Color.White
  · have hswap : (swapPiece me).color = Color.Black := by
      simp [swapPiece, hcol, Color.opposite_color]
    rw [hcol, hswap]
    simp only [if_pos rfl, reduceCtorEq, if_false]
    have key := pawnMovesCore_mirror b me c r hc hr 1 1
      ((b.height : Int) - 1) m
    have e1 : -(1 : Int) = -1 := by ring
    have e2 : (b.height : Int) - 1 - 1 = (b.height : Int) - 2 := by ring
    have e3 : (b.height : Int) - 1 - ((b.height : Int) - 1) = 0 := by ring
    rw [e1, e2, e3] at key
    exact key
  · have hswap : (swapPiece me).color = Color.White := by
      cases hme : me.color
      · exact absurd hme hcol
      · simp [swapPiece, hme, Color.opposite_color]
    rw [hswap]
    simp only [if_pos rfl, if_neg hcol]
    have key := pawnMovesCore_mirror b me c r hc hr (-1)
      ((b.height : Int) - 2) 0 m
    have e1 : -(-1 : Int) = 1 := by ring
    have e2 : (b.height : Int) - 1 - ((b.height : Int) - 2) = 1 := by ring
    have e3 : (b.height : Int) - 1 - 0 = (b.height : Int) - 1 := by ring
    rw [e1, e2, e3] at key
    exact key

theorem leapStep_mirror (b : GameBoard) (me : ChessPiece) (orig : Nat × Nat)
    (hc : orig.1 < b.width) (hr : orig.2 < b.height) (o : Int × Int) :
    leapStep (mirrorBoard b) (swapPiece me) (mirrorPos b.width b.height orig)
        (-o.1, -o.2) =
      (leapStep b me orig o).map (mirrorMove b.width b.height) := by
  unfold leapStep
  simp only []
  have eC : (((mirrorPos b.width b.height orig).1 : Int)) + -o.1 =
      (b.width : Int) - 1 - ((orig.1 : Int) + o.1) := by
    show ((b.width - 1 - orig.1 : Nat) : Int) + -o.1 = _
    omega
  have eR : (((mirrorPos b.width b.height orig).2 : Int)) + -o.2 =
      (b.height : Int) - 1 - ((orig.2 : Int) + o.2) := by
    show ((b.height - 1 - orig.2 : Nat) : Int) + -o.2 = _
    omega
  rw [eC, eR, inBoundsI_mirror, pieceAtI_mirror]
  have e1 : (b.width : Int) - 1 -
      ((b.width : Int) - 1 - ((orig.1 : Int) + o.1)) =
      (orig.1 : Int) + o.1 := by ring
  have e2 : (b.height : Int) - 1 -
      ((b.height : Int) - 1 - ((orig.2 : Int) + o.2)) =
      (orig.2 : Int) + o.2 := by ring
  rw [e1, e2]
  by_cases h : inBoundsI b ((orig.1 : Int) + o.1) ((orig.2 : Int) + o.2) =
      true
  · rw [if_pos h, if_pos h]
    have hb := (inBoundsI_iff _ _ _).mp h
    cases hp : pieceAtI b ((orig.1 : Int) + o.1) ((orig.2 : Int) + o.2) with
    | none =>
      simp only [Option.map_none', Option.map_some', mirrorMove]
      rw [mirrorPos_toPos b.width b.height _ _ hb.1 hb.2.1 hb.2.2.1 hb.2.2.2]
    | some p =>
      simp only [Option.map_some']
      by_cases hcol : p.color = me.color
      · have hcol2 : (swapPiece p).color = (swapPiece me).color := by
          simp [swapPiece, hcol]
        rw [if_pos hcol2, if_pos hcol]
        rfl
      · have hcol2 : ¬ (swapPiece p).color = (swapPiece me).color := by
          simp only [swapPiece]
          rw [opposite_inj]
          exact hcol
        rw [if_neg hcol2, if_neg hcol]
        simp only [Option.map_some', mirrorMove]
        rw [mirrorPos_toPos b.width b.height _ _ hb.1 hb.2.1 hb.2.2.1
          hb.2.2.2]
  · rw [if_neg h, if_neg h]
    rfl

theorem leapMoves_mirror (b : GameBoard) (me : ChessPiece) (orig : Nat × Nat)
    (offsets : List (Int × Int))
    (hoff : ∀ o ∈ offsets, ((-o.1, -o.2) : Int × Int) ∈ offsets)
    (hc : orig.1 < b.width) (hr : orig.2 < b.height) (m : ChessMoveType) :
    m ∈ leapMoves (mirrorBoard b) (swapPiece me)
        (mirrorPos b.width b.height orig) offsets ↔
      ∃ m0 ∈ leapMoves b me orig offsets,
        mirrorMove b.width b.height m0 = m := by
  unfold leapMoves
  rw [List.mem_filterMap]
  constructor
  · rintro ⟨o, ho, heq⟩
    have key := leapStep_mirror b me orig hc hr (-o.1, -o.2)
    simp only [neg_neg, Prod.mk.eta] at key
    rw [key] at heq
    cases hstep : leapStep b me orig (-o.1, -o.2) with
    | none =>
      rw [hstep] at heq
      exact absurd heq (by simp)
    | some m0 =>
      rw [hstep] at heq
      simp only [Option.map_some'] at heq
      refine ⟨m0, List.mem_filterMap.mpr ⟨(-o.1, -o.2), hoff o ho, hstep⟩, ?_⟩
      injection heq
  · rintro ⟨m0, hm0, hmm⟩
    obtain ⟨o, ho, hstep⟩ := List.mem_filterMap.mp hm0
    refine ⟨(-o.1, -o.2), hoff o ho, ?_⟩
    rw [leapStep_mirror b me orig hc hr o, hstep]
    simp only [Option.map_some']
    rw [hmm]

theorem slidingMoves_mirror (b : GameBoard) (me : ChessPiece)
    (orig : Nat × Nat) (dirs : List (Int × Int))
    (hdirs : ∀ d ∈ dirs, ((-d.1, -d.2) : Int × Int) ∈ dirs)
    (hc : orig.1 < b.width) (hr : orig.2 < b.height) (m : ChessMoveType) :
    m ∈ slidingMoves (mirrorBoard b) (swapPiece me)
        (mirrorPos b.width b.height orig) dirs ↔
      ∃ m0 ∈ slidingMoves b me orig dirs,
        mirrorMove b.width b.height m0 = m := by
  unfold slidingMoves
  rw [List.mem_flatMap]
  constructor
  · rintro ⟨e, he, hm⟩
    have e5 : (((mirrorPos b.width b.height orig).1 : Int)) + e.1 =
        (b.width : Int) - 1 - ((orig.1 : Int) + -e.1) := by
      show ((b.width - 1 - orig.1 : Nat) : Int) + e.1 = _
      omega
    have e6 : (((mirrorPos b.width b.height orig).2 : Int)) + e.2 =
        (b.height : Int) - 1 - ((orig.2 : Int) + -e.2) := by
      show ((b.height - 1 - orig.2 : Nat) : Int) + e.2 = _
      omega
    rw [e5, e6] at hm
    have key := slideWalk_mirror b me orig (-e.1) (-e.2)
      ((mirrorBoard b).width + (mirrorBoard b).height)
      ((orig.1 : Int) + -e.1) ((orig.2 : Int) + -e.2)
    simp only [neg_neg] at key
    rw [key] at hm
    obtain ⟨m0, hm0, hmm⟩ := List.mem_map.mp hm
    refine ⟨m0, List.mem_flatMap.mpr ⟨(-e.1, -e.2), hdirs e he, ?_⟩, hmm⟩
    exact hm0
  · rintro ⟨m0, hm0, hmm⟩
    obtain ⟨dd, hdd, hw⟩ := List.mem_flatMap.mp hm0
    refine ⟨(-dd.1, -dd.2), hdirs dd hdd, ?_⟩
    show m ∈ slideWalk (mirrorBoard b) (swapPiece me)
      (mirrorPos b.width b.height orig) (-dd.1) (-dd.2)
      ((mirrorBoard b).width + (mirrorBoard b).height)
      (((mirrorPos b.width b.height orig).1 : Int) + -dd.1)
      (((mirrorPos b.width b.height orig).2 : Int) + -dd.2)
    have e7 : (((mirrorPos b.width b.height orig).1 : Int)) + -dd.1 =
        (b.width : Int) - 1 - ((orig.1 : Int) + dd.1) := by
      show ((b.width - 1 - orig.1 : Nat) : Int) + -dd.1 = _
      omega
    have e8 : (((mirrorPos b.width b.height orig).2 : Int)) + -dd.2 =
        (b.height : Int) - 1 - ((orig.2 : Int) + dd.2) := by
      show ((b.height - 1 - orig.2 : Nat) : Int) + -dd.2 = _
      omega
    rw [e7, e8]
    rw [slideWalk_mirror b me orig dd.1 dd.2
      ((mirrorBoard b).width + (mirrorBoard b).height)
      ((orig.1 : Int) + dd.1) ((orig.2 : Int) + dd.2)]
    exact List.mem_map.mpr ⟨m0, hw, hmm⟩

theorem knightOffsets_neg_closed :
    ∀ o ∈ knightOffsets, ((-o.1, -o.2) : Int × Int) ∈ knightOffsets := by
  decide

theorem kingOffsets_neg_closed :
    ∀ o ∈ kingOffsets, ((-o.1, -o.2) : Int × Int) ∈ kingOffsets := by
  decide

theorem bishopDirections_neg_closed :
    ∀ d ∈ bishopDirections, ((-d.1, -d.2) : Int × Int) ∈ bishopDirections := by
  decide

theorem rookDirections_neg_closed :
    ∀ d ∈ rookDirections, ((-d.1, -d.2) : Int × Int) ∈ rookDirections := by
  decide

theorem queenDirections_neg_closed :
    ∀ d ∈ queenDirections, ((-d.1, -d.2) : Int × Int) ∈ queenDirections := by
  decide

theorem mem_boardCoords (b : GameBoard) (cr : Nat × Nat) :
    cr ∈ boardCoords b ↔ cr.1 < b.width ∧ cr.2 < b.height := by
  unfold boardCoords
  rw [List.mem_flatMap]
  constructor
  · rintro ⟨col, hcol, hmem⟩
    obtain ⟨row, hrow, heq⟩ := List.mem_map.mp hmem
    rw [← heq]
    exact ⟨List.mem_range.mp hcol, List.mem_range.mp hrow⟩
  · rintro ⟨h1, h2⟩
    exact ⟨cr.1, List.mem_range.mpr h1,
      List.mem_map.mpr ⟨cr.2, List.mem_range.mpr h2, rfl⟩⟩

theorem takesKing_mirror (w h : Nat) (color : Color) (m : ChessMoveType) :
    takesKing color.opposite_color (mirrorMove w h m) = takesKing color m := by
  cases m with
  | Move op np piece => rfl
  | Take op np piece taken =>
    show (decide (taken.piece_type = PieceType.King) &&
        decide (taken.color.opposite_color = color.opposite_color)) =
      (decide (taken.piece_type = PieceType.King) &&
        decide (taken.color = color))
    congr 1
    exact decide_eq_decide.mpr (opposite_inj taken.color color)
  | EnPassant op np tp piece taken => rfl
  | Castle ko kn ro rn c => rfl

theorem get_legal_moves_mirror (b : GameBoard) (piece : ChessPiece)
    (c r : Nat) (hc : c < b.width) (hr : r < b.height) (m : ChessMoveType) :
    m ∈ (swapPiece piece).get_legal_moves (b.width - 1 - c) (b.height - 1 - r)
        (mirrorBoard b) none ↔
      ∃ m0 ∈ piece.get_legal_moves c r b none,
        mirrorMove b.width b.height m0 = m := by
  obtain ⟨pc, pt⟩ := piece
  cases pt with
  | Pawn => exact pawnMoves_mirror b ⟨pc, PieceType.Pawn⟩ c r hc hr m
  | Knight =>
    exact leapMoves_mirror b ⟨pc, PieceType.Knight⟩ (c, r) knightOffsets
      knightOffsets_neg_closed hc hr m
  | Bishop =>
    exact slidingMoves_mirror b ⟨pc, PieceType.Bishop⟩ (c, r) bishopDirections
      bishopDirections_neg_closed hc hr m
  | Rook =>
    exact slidingMoves_mirror b ⟨pc, PieceType.Rook⟩ (c, r) rookDirections
      rookDirections_neg_closed hc hr m
  | Queen =>
    exact slidingMoves_mirror b ⟨pc, PieceType.Queen⟩ (c, r) queenDirections
      queenDirections_neg_closed hc hr m
  | King =>
    exact leapMoves_mirror b ⟨pc, PieceType.King⟩ (c, r) kingOffsets
      kingOffsets_neg_closed hc hr m

theorem checkScanAt_mirror (b : GameBoard) (color : Color) (c r : Nat)
    (h1 : c < b.width) (h2 : r < b.height) :
    checkScanAt (mirrorBoard b) color.opposite_color none (c, r) =
      checkScanAt b color none (b.width - 1 - c, b.height - 1 - r) := by
  have hpm : (mirrorBoard b).pieceAt c r =
      (b.pieceAt (b.width - 1 - c) (b.height - 1 - r)).map swapPiece := by
    rw [pieceAt_mirror]
    rw [if_pos ⟨h1, h2⟩]
  show (match (mirrorBoard b).pieceAt c r with
    | some piece =>
      if piece.color = color.opposite_color.opposite_color then
        (piece.get_legal_moves c r (mirrorBoard b) none).any
          (takesKing color.opposite_color)
      else false
    | none => false) =
    (match b.pieceAt (b.width - 1 - c) (b.height - 1 - r) with
    | some piece =>
      if piece.color = color.opposite_color then
        (piece.get_legal_moves (b.width - 1 - c) (b.height - 1 - r) b none).any
          (takesKing color)
      else false
    | none => false)
  rw [hpm]
  cases hp : b.pieceAt (b.width - 1 - c) (b.height - 1 - r) with
  | none => rfl
  | some p =>
    show (if (swapPiece p).color = color.opposite_color.opposite_color then
        ((swapPiece p).get_legal_moves c r (mirrorBoard b) none).any
          (takesKing color.opposite_color)
      else false) =
      (if p.color = color.opposite_color then
        (p.get_legal_moves (b.width - 1 - c) (b.height - 1 - r) b none).any
          (takesKing color)
      else false)
    have hcond : ((swapPiece p).color = color.opposite_color.opposite_color) ↔
        (p.color = color.opposite_color) := by
      show (p.color.opposite_color = color.opposite_color.opposite_color) ↔ _
      exact opposite_inj p.color color.opposite_color
    by_cases hcnd : p.color = color.opposite_color
    · rw [if_pos (hcond.mpr hcnd), if_pos hcnd]
      have hbe : ∀ (x y : Bool), (x = true ↔ y = true) → x = y := by decide
      apply hbe
      rw [List.any_eq_true, List.any_eq_true]
      have hglm := get_legal_moves_mirror b p (b.width - 1 - c)
        (b.height - 1 - r) (by omega) (by omega)
      have ec : b.width - 1 - (b.width - 1 - c) = c := by omega
      have er : b.height - 1 - (b.height - 1 - r) = r := by omega
      rw [ec, er] at hglm
      constructor
      · rintro ⟨m, hm, hk⟩
        obtain ⟨m0, hm0, hmm⟩ := (hglm m).mp hm
        refine ⟨m0, hm0, ?_⟩
        rw [← hmm, takesKing_mirror] at hk
        exact hk
      · rintro ⟨m0, hm0, hk⟩
        refine ⟨mirrorMove b.width b.height m0, (hglm _).mpr ⟨m0, hm0, rfl⟩, ?_⟩
        rw [takesKing_mirror]
        exact hk
    · rw [if_neg (fun hx => hcnd (hcond.mp hx)), if_neg hcnd]

theorem is_color_in_check_mirror (b : GameBoard) (color : Color) :
    is_color_in_check (mirrorBoard b) color.opposite_color none =
      is_color_in_check b color none := by
  have hbe : ∀ (x y : Bool), (x = true ↔ y = true) → x = y := by decide
  apply hbe
  unfold is_color_in_check
  rw [List.any_eq_true, List.any_eq_true]
  constructor
  · rintro ⟨cr, hcr, hbody⟩
    have hb := (mem_boardCoords (mirrorBoard b) cr).mp hcr
    have hb1 : cr.1 < b.width := hb.1
    have hb2 : cr.2 < b.height := hb.2
    refine ⟨(b.width - 1 - cr.1, b.height - 1 - cr.2),
      (mem_boardCoords b _).mpr
        ⟨by show b.width - 1 - cr.1 < b.width; omega,
          by show b.height - 1 - cr.2 < b.height; omega⟩, ?_⟩
    have key := checkScanAt_mirror b color cr.1 cr.2 hb1 hb2
    rw [← key]
    exact hbody
  · rintro ⟨cr, hcr, hbody⟩
    have hb := (mem_boardCoords b cr).mp hcr
    have hb1 : cr.1 < b.width := hb.1
    have hb2 : cr.2 < b.height := hb.2
    refine ⟨(b.width - 1 - cr.1, b.height - 1 - cr.2),
      (mem_boardCoords (mirrorBoard b) _).mpr
        ⟨by show b.width - 1 - cr.1 < b.width; omega,
          by show b.height - 1 - cr.2 < b.height; omega⟩, ?_⟩
    have key := checkScanAt_mirror b color (b.width - 1 - cr.1)
      (b.height - 1 - cr.2) (by omega) (by omega)
    rw [key]
    have ec : b.width - 1 - (b.width - 1 - cr.1) = cr.1 := by omega
    have er : b.height - 1 - (b.height - 1 - cr.2) = cr.2 := by omega
    rw [ec, er]
    exact hbody

/-- C8: `is_color_in_check` is symmetric under color swap on the mirrored
board (the board rotated 180 degrees with all piece colors swapped): the
swapped color is in check on the mirrored board exactly when the original
color is in check on the original board.  In particular, on the 2-by-2 board
parsed from the string with an empty square, a black queen, a newline, a
white king and an empty square, `is_color_in_check` reports White in check. -/
theorem check_symmetric_under_mirror :
    (∀ (b : GameBoard) (color : Color),
      is_color_in_check (mirrorBoard b) color.opposite_color none =
        is_color_in_check b color none) ∧
    (match GameBoard.from_string 2 2 [' ', '♛', '\n', '♔', ' '] with
      | Except.ok b => is_color_in_check b Color.White none
      | Except.error _ => false) = true :=
  ⟨fun b color => is_color_in_check_mirror b color, by decide⟩
